import Mathlib

/-!
# Verification of the ImmortaGraph gap-discovery engine

This file gives a shallow embedding of the `NetworkAnalyzer` core of
`src/main.py` (the gap-discovery engine over a knowledge graph) and proves
or refutes the frozen specification claims about it.

Modelling conventions:

* Python floats are idealised as exact values.  Embedding vectors are
  `List ℚ`.  Every number the analyzer ever compares or stores is of the
  shape `q / Real.sqrt r` with `q r : ℚ` (cosine similarities are
  `dot / (‖a‖ * ‖b‖)` where the squared norms are rational; all other
  scores are plain rationals, i.e. `q / Real.sqrt 1`).  Such values are
  represented exactly and computably by the structure `SqrtVal`, whose
  real meaning is `SqrtVal.toReal`.  Bridge lemmas prove that the
  boolean comparisons used on the code path coincide with the real
  comparisons of the source.
* NumPy's division of a zero `dot` by a zero norm product yields NaN
  without raising; every Python comparison with NaN is `False`.  A
  `SqrtVal` with `radSq = 0` plays the role of that NaN: `simGT` (the
  embedding of `similarity > t`) returns `false` on it, and Python's
  `max(0, nan) == 0` is mirrored by `maxZero`.
* The sentence-transformer model is an external collaborator; it enters
  as a parameter `enc : String → List ℚ` (deterministic, as the spec
  requires of the embedding function).
* Neo4j is an external collaborator: the analyzer consumes the list of
  `(n, r, m)` records returned by `get_graph_data`, modelled by
  `RawRecord`.  Node attribute bags are restricted to the keys the
  analyzer reads (`id`, `type`, `name`, `description`,
  `properties.recent_mentions`, `properties.clinical_relevance`); the
  two property values are `PropVal` (number or string) so that the
  `TypeError` a string-valued property raises in
  `_calculate_research_potential` is representable (`Except`).
* Python `set` iteration order is modelled as first-insertion order of
  the underlying adjacency lists; no claim depends on the order, only on
  set membership and cardinality.
-/

/-- The exact value `num / Real.sqrt radSq`.  `radSq = 0` stands for the
IEEE NaN produced by the unguarded division in the source (see module
docstring). -/
structure SqrtVal where
  num : ℚ
  radSq : ℚ
  radSq_nonneg : 0 ≤ radSq

/-- Real meaning of a `SqrtVal` (`x / 0 = 0` covers the NaN marker). -/
noncomputable def SqrtVal.toReal (s : SqrtVal) : ℝ :=
  (s.num : ℝ) / Real.sqrt (s.radSq : ℝ)

theorem SqrtVal.ext' {a b : SqrtVal} (h1 : a.num = b.num) (h2 : a.radSq = b.radSq) : a = b := by
  cases a; cases b; simp_all

/-- A plain rational as a `SqrtVal`. -/
def SqrtVal.ofRat (q : ℚ) : SqrtVal := ⟨q, 1, zero_le_one⟩

theorem SqrtVal.toReal_ofRat (q : ℚ) : (SqrtVal.ofRat q).toReal = (q : ℝ) := by
  simp [SqrtVal.toReal, SqrtVal.ofRat, Real.sqrt_one]

/-- Numerator used for comparisons: a NaN marker compares like `0`. -/
def SqrtVal.n (s : SqrtVal) : ℚ := if s.radSq = 0 then 0 else s.num

/-- Radicand used for comparisons: a NaN marker compares like `0 / √1`. -/
def SqrtVal.r (s : SqrtVal) : ℚ := if s.radSq = 0 then 1 else s.radSq

theorem SqrtVal.r_pos (s : SqrtVal) : 0 < s.r := by
  unfold SqrtVal.r
  rcases eq_or_lt_of_le s.radSq_nonneg with h | h
  · simp [← h]
  · simp [ne_of_gt h, h]

theorem SqrtVal.toReal_eq (s : SqrtVal) : s.toReal = (s.n : ℝ) / Real.sqrt (s.r : ℝ) := by
  unfold SqrtVal.toReal SqrtVal.n SqrtVal.r
  by_cases h : s.radSq = 0
  · simp [h, Real.sqrt_zero, Real.sqrt_one]
  · simp [h]

/-- Decidable comparison of the real values of two `SqrtVal`s
(cross-multiplied squares; signs first). -/
def SqrtVal.le (a b : SqrtVal) : Bool :=
  if 0 < a.n then
    decide (0 < b.n) && decide (a.n ^ 2 * b.r ≤ b.n ^ 2 * a.r)
  else
    decide (0 ≤ b.n) || decide (b.n ^ 2 * a.r ≤ a.n ^ 2 * b.r)

private theorem sqrtQ_pos {q : ℚ} (h : 0 < q) : 0 < Real.sqrt (q : ℝ) :=
  Real.sqrt_pos.mpr (by exact_mod_cast h)

theorem SqrtVal.le_iff (a b : SqrtVal) : a.le b = true ↔ a.toReal ≤ b.toReal := by
  rw [a.toReal_eq, b.toReal_eq]
  have hra : (0 : ℝ) < Real.sqrt (a.r : ℝ) := sqrtQ_pos a.r_pos
  have hrb : (0 : ℝ) < Real.sqrt (b.r : ℝ) := sqrtQ_pos b.r_pos
  have hra2 : (Real.sqrt (a.r : ℝ)) ^ 2 = (a.r : ℝ) :=
    Real.sq_sqrt (by exact_mod_cast a.r_pos.le)
  have hrb2 : (Real.sqrt (b.r : ℝ)) ^ 2 = (b.r : ℝ) :=
    Real.sq_sqrt (by exact_mod_cast b.r_pos.le)
  rw [div_le_div_iff₀ hra hrb]
  unfold SqrtVal.le
  by_cases hna : 0 < a.n
  · have hna' : (0 : ℝ) < (a.n : ℝ) := by exact_mod_cast hna
    simp only [if_pos hna, Bool.and_eq_true, decide_eq_true_eq]
    constructor
    · rintro ⟨hnb, hle⟩
      have hnb' : (0 : ℝ) < (b.n : ℝ) := by exact_mod_cast hnb
      have h2 : (0 : ℝ) ≤ (b.n : ℝ) * Real.sqrt (a.r : ℝ) := by positivity
      have hsq : ((a.n : ℝ) * Real.sqrt (b.r : ℝ)) ^ 2 ≤ ((b.n : ℝ) * Real.sqrt (a.r : ℝ)) ^ 2 := by
        rw [mul_pow, mul_pow, hra2, hrb2]
        exact_mod_cast hle
      exact le_of_pow_le_pow_left₀ two_ne_zero h2 hsq
    · intro hle
      have hlhs : (0 : ℝ) < (a.n : ℝ) * Real.sqrt (b.r : ℝ) := by positivity
      have hnb' : (0 : ℝ) < (b.n : ℝ) := by
        by_contra hc
        push_neg at hc
        have : (b.n : ℝ) * Real.sqrt (a.r : ℝ) ≤ 0 := mul_nonpos_of_nonpos_of_nonneg hc hra.le
        linarith
      refine ⟨by exact_mod_cast hnb', ?_⟩
      have hsq : ((a.n : ℝ) * Real.sqrt (b.r : ℝ)) ^ 2 ≤ ((b.n : ℝ) * Real.sqrt (a.r : ℝ)) ^ 2 :=
        pow_le_pow_left₀ hlhs.le hle 2
      rw [mul_pow, mul_pow, hra2, hrb2] at hsq
      exact_mod_cast hsq
  · push_neg at hna
    have hna' : (a.n : ℝ) ≤ 0 := by exact_mod_cast hna
    simp only [if_neg (not_lt.mpr hna), Bool.or_eq_true, decide_eq_true_eq]
    by_cases hnb : 0 ≤ b.n
    · have hnb' : (0 : ℝ) ≤ (b.n : ℝ) := by exact_mod_cast hnb
      constructor
      · intro _
        have h1 : (a.n : ℝ) * Real.sqrt (b.r : ℝ) ≤ 0 := mul_nonpos_of_nonpos_of_nonneg hna' hrb.le
        have h2 : (0 : ℝ) ≤ (b.n : ℝ) * Real.sqrt (a.r : ℝ) := by positivity
        linarith
      · intro _; exact Or.inl hnb
    · push_neg at hnb
      have hnb' : (b.n : ℝ) < 0 := by exact_mod_cast hnb
      have e1 : (-(b.n : ℝ) * Real.sqrt (a.r : ℝ)) ^ 2 = (b.n : ℝ) ^ 2 * (a.r : ℝ) := by
        rw [mul_pow, hra2]; ring
      have e2 : (-(a.n : ℝ) * Real.sqrt (b.r : ℝ)) ^ 2 = (a.n : ℝ) ^ 2 * (b.r : ℝ) := by
        rw [mul_pow, hrb2]; ring
      have hb1 : (0 : ℝ) ≤ -(b.n : ℝ) * Real.sqrt (a.r : ℝ) := by
        apply mul_nonneg _ hra.le; linarith
      have ha1 : (0 : ℝ) ≤ -(a.n : ℝ) * Real.sqrt (b.r : ℝ) := by
        apply mul_nonneg _ hrb.le; linarith
      constructor
      · rintro (h | hle)
        · exact absurd h (not_le.mpr hnb)
        · have hsq : (-(b.n : ℝ) * Real.sqrt (a.r : ℝ)) ^ 2 ≤ (-(a.n : ℝ) * Real.sqrt (b.r : ℝ)) ^ 2 := by
            rw [e1, e2]
            exact_mod_cast hle
          have := le_of_pow_le_pow_left₀ two_ne_zero ha1 hsq
          linarith
      · intro hle
        refine Or.inr ?_
        have hsq : (-(b.n : ℝ) * Real.sqrt (a.r : ℝ)) ^ 2 ≤ (-(a.n : ℝ) * Real.sqrt (b.r : ℝ)) ^ 2 :=
          pow_le_pow_left₀ hb1 (by linarith) 2
        rw [e1, e2] at hsq
        exact_mod_cast hsq

theorem SqrtVal.le_total' (a b : SqrtVal) : a.le b = true ∨ b.le a = true := by
  rcases le_total a.toReal b.toReal with h | h
  · exact Or.inl ((a.le_iff b).mpr h)
  · exact Or.inr ((b.le_iff a).mpr h)

theorem SqrtVal.le_trans' {a b c : SqrtVal} (h1 : a.le b = true) (h2 : b.le c = true) :
    a.le c = true :=
  (a.le_iff c).mpr (le_trans ((a.le_iff b).mp h1) ((b.le_iff c).mp h2))

/-- Equality of the denoted real values, decided on the representation. -/
def SqrtVal.valEq (a b : SqrtVal) : Bool := a.le b && b.le a

theorem SqrtVal.valEq_iff (a b : SqrtVal) : a.valEq b = true ↔ a.toReal = b.toReal := by
  unfold SqrtVal.valEq
  rw [Bool.and_eq_true, a.le_iff b, b.le_iff a]
  constructor
  · rintro ⟨h1, h2⟩; exact le_antisymm h1 h2
  · intro h; exact ⟨le_of_eq h, le_of_eq h.symm⟩

/-- Embedding of the float comparison `similarity > t` of the source
(`False` on NaN, i.e. on the `radSq = 0` marker). -/
def SqrtVal.simGT (s : SqrtVal) (t : ℚ) : Bool :=
  if s.radSq = 0 then false
  else decide (0 < s.num) && decide (t ^ 2 * s.radSq < s.num ^ 2)

theorem SqrtVal.simGT_iff {t : ℚ} (s : SqrtVal) (ht : 0 ≤ t) :
    s.simGT t = true ↔ (t : ℝ) < s.toReal := by
  unfold SqrtVal.simGT
  by_cases h0 : s.radSq = 0
  · have hz : s.toReal = 0 := by
      unfold SqrtVal.toReal
      rw [h0]
      simp [Real.sqrt_zero]
    rw [hz, if_pos h0]
    have ht' : (0 : ℝ) ≤ (t : ℝ) := by exact_mod_cast ht
    constructor
    · intro h; exact absurd h (by simp)
    · intro h; linarith
  · have hr : 0 < s.radSq := lt_of_le_of_ne s.radSq_nonneg (Ne.symm h0)
    have hsr : (0 : ℝ) < Real.sqrt (s.radSq : ℝ) := sqrtQ_pos hr
    have hsr2 : (Real.sqrt (s.radSq : ℝ)) ^ 2 = (s.radSq : ℝ) :=
      Real.sq_sqrt (by exact_mod_cast hr.le)
    have htr : s.toReal = (s.num : ℝ) / Real.sqrt (s.radSq : ℝ) := rfl
    rw [htr, if_neg h0, lt_div_iff₀ hsr, Bool.and_eq_true, decide_eq_true_eq, decide_eq_true_eq]
    have ht' : (0 : ℝ) ≤ (t : ℝ) := by exact_mod_cast ht
    have h1 : (0 : ℝ) ≤ (t : ℝ) * Real.sqrt (s.radSq : ℝ) := by positivity
    constructor
    · rintro ⟨hn, hlt⟩
      have hn' : (0 : ℝ) < (s.num : ℝ) := by exact_mod_cast hn
      have hsq : ((t : ℝ) * Real.sqrt (s.radSq : ℝ)) ^ 2 < (s.num : ℝ) ^ 2 := by
        rw [mul_pow, hsr2]
        exact_mod_cast hlt
      exact lt_of_pow_lt_pow_left₀ 2 hn'.le hsq
    · intro hlt
      have hn' : (0 : ℝ) < (s.num : ℝ) := lt_of_le_of_lt h1 hlt
      refine ⟨by exact_mod_cast hn', ?_⟩
      have hsq : ((t : ℝ) * Real.sqrt (s.radSq : ℝ)) ^ 2 < (s.num : ℝ) ^ 2 :=
        pow_lt_pow_left₀ hlt h1 two_ne_zero
      rw [mul_pow, hsr2] at hsq
      exact_mod_cast hsq

/-- Multiply the denoted value by a rational (`q * (num/√r) = (q*num)/√r`). -/
def SqrtVal.scaleQ (q : ℚ) (s : SqrtVal) : SqrtVal := ⟨q * s.num, s.radSq, s.radSq_nonneg⟩

theorem SqrtVal.toReal_scaleQ (q : ℚ) (s : SqrtVal) :
    (s.scaleQ q).toReal = (q : ℝ) * s.toReal := by
  unfold SqrtVal.toReal SqrtVal.scaleQ
  push_cast
  ring

/-- Embedding of Python's `max(0, similarity)` on floats
(`max(0, nan) == 0`, so the NaN marker also maps to `0`). -/
def SqrtVal.maxZero (s : SqrtVal) : SqrtVal :=
  if s.radSq = 0 then SqrtVal.ofRat 0
  else if s.num ≤ 0 then SqrtVal.ofRat 0
  else s

theorem SqrtVal.toReal_maxZero (s : SqrtVal) : s.maxZero.toReal = max 0 s.toReal := by
  unfold SqrtVal.maxZero
  by_cases h0 : s.radSq = 0
  · rw [if_pos h0, SqrtVal.toReal_ofRat]
    have : s.toReal = 0 := by
      unfold SqrtVal.toReal
      rw [h0]
      simp [Real.sqrt_zero]
    rw [this]
    simp
  · rw [if_neg h0]
    have hr : 0 < s.radSq := lt_of_le_of_ne s.radSq_nonneg (Ne.symm h0)
    have hsr : (0 : ℝ) < Real.sqrt (s.radSq : ℝ) := sqrtQ_pos hr
    by_cases hn : s.num ≤ 0
    · rw [if_pos hn, SqrtVal.toReal_ofRat]
      have : s.toReal ≤ 0 := by
        unfold SqrtVal.toReal
        apply div_nonpos_of_nonpos_of_nonneg _ hsr.le
        exact_mod_cast hn
      simp [max_eq_left this]
    · rw [if_neg hn]
      push_neg at hn
      have : 0 < s.toReal := by
        unfold SqrtVal.toReal
        apply div_pos _ hsr
        exact_mod_cast hn
      simp [max_eq_right this.le]

/-! ## Embedding vectors

`np.dot` and `np.linalg.norm` of `src/main.py`: the dot product of two
equal-length float vectors and the Euclidean norm.  Only the squared
norm is rational, so `cosineSim` stores `dot` and `‖a‖² * ‖b‖²` and
denotes `dot / (‖a‖ * ‖b‖)` (`√(A*B) = √A * √B`). -/

/-- `np.dot(a, b)`. -/
def dot (a b : List ℚ) : ℚ := (List.zipWith (· * ·) a b).sum

/-- Squared Euclidean norm, `np.linalg.norm(a) ** 2`. -/
def normSq (a : List ℚ) : ℚ := (a.map fun x => x * x).sum

theorem normSq_nonneg (a : List ℚ) : 0 ≤ normSq a := by
  unfold normSq
  apply List.sum_nonneg
  intro x hx
  rcases List.mem_map.mp hx with ⟨y, _, rfl⟩
  exact mul_self_nonneg y

/-- The cosine similarity
`np.dot(a, b) / (np.linalg.norm(a) * np.linalg.norm(b))` as an exact
`SqrtVal` (NaN for zero-norm input, as in NumPy). -/
def cosineSim (a b : List ℚ) : SqrtVal :=
  ⟨dot a b, normSq a * normSq b, mul_nonneg (normSq_nonneg a) (normSq_nonneg b)⟩

theorem dot_comm (a b : List ℚ) : dot a b = dot b a := by
  unfold dot
  induction a generalizing b with
  | nil => cases b <;> simp
  | cons x xs ih =>
    cases b with
    | nil => simp
    | cons y ys => simp [List.zipWith, ih ys, mul_comm]

theorem cosineSim_comm (a b : List ℚ) : cosineSim a b = cosineSim b a := by
  apply SqrtVal.ext' <;> simp [cosineSim, dot_comm, mul_comm]

/-- Cauchy–Schwarz for the list dot product (equal lengths, as `np.dot`
requires). -/
theorem dot_sq_le_normSq_mul (a b : List ℚ) (h : a.length = b.length) :
    (dot a b) ^ 2 ≤ normSq a * normSq b := by
  induction a generalizing b with
  | nil =>
    cases b with
    | nil => simp [dot, normSq]
    | cons y ys => simp at h
  | cons x xs ih =>
    cases b with
    | nil => simp at h
    | cons y ys =>
      simp only [List.length_cons, Nat.succ.injEq] at h
      have IH := ih ys h
      have hA : 0 ≤ normSq xs := normSq_nonneg xs
      have hB : 0 ≤ normSq ys := normSq_nonneg ys
      have hd : dot (x :: xs) (y :: ys) = x * y + dot xs ys := by
        simp [dot, List.zipWith]
      have hnx : normSq (x :: xs) = x * x + normSq xs := by
        simp [normSq]
      have hny : normSq (y :: ys) = y * y + normSq ys := by
        simp [normSq]
      rw [hd, hnx, hny]
      set d := dot xs ys
      set A := normSq xs
      set B := normSq ys
      rcases eq_or_lt_of_le hB with hB0 | hB0
      · have hd0 : d ^ 2 ≤ 0 := by rw [← hB0, mul_zero] at IH; simpa using IH
        have : d = 0 := by
          have := sq_nonneg d
          nlinarith
        rw [this]
        nlinarith [mul_self_nonneg x, mul_self_nonneg y, mul_nonneg hA (mul_self_nonneg y)]
      · -- key certificate: B * P = (x*B - y*d)² + y²*(A*B - d²) + B*(A*B - d²) ≥ 0 where
        -- P := (x*x + A) * (y*y + B) - (x*y + d)², hence P ≥ 0 since B > 0.
        nlinarith [sq_nonneg (x * B - y * d), mul_nonneg (mul_self_nonneg y) (sub_nonneg.mpr IH),
          mul_nonneg hB0.le (sub_nonneg.mpr IH), sq_nonneg (x * y - d), mul_nonneg hA hB]

/-! ## Data model and Graph View

Embedding of the node attribute dictionaries and of
`KnowledgeGraphDB.get_graph_data` / `NetworkAnalyzer.build_networkx_graph`
(`nx.Graph`: undirected, attribute-merging `add_node`, first-insertion
adjacency order, self-loops allowed). -/

/-- A property-bag value: Python number or string (the analyzer only does
arithmetic on these, which raises `TypeError` on a string). -/
inductive PropVal where
  | num (q : ℚ)
  | str (s : String)
deriving DecidableEq

/-- The `properties` sub-dictionary, restricted to the keys read by
`_calculate_research_potential`. -/
structure NodeProps where
  recent_mentions : Option PropVal
  clinical_relevance : Option PropVal
deriving DecidableEq

/-- A node attribute dictionary, restricted to the keys the analyzer
reads.  `description` is read with `node.get('description','')`, so a
missing description is identified with `""`. -/
structure NodeData where
  id : String
  type : String
  name : String
  description : String
  properties : NodeProps
deriving DecidableEq

/-- One `(n, r, m)` record of `get_graph_data` (`MATCH (n)-[r]->(m)`).
The relationship attributes are stored on the edge by
`build_networkx_graph` but never read by the analyzer. -/
structure RawRecord where
  n : NodeData
  m : NodeData
  relType : String
  weight : ℚ
deriving DecidableEq

/-- The in-memory `nx.Graph`: node list in insertion order (attribute
dictionaries included) and the list of added edges. -/
structure Graph where
  nodes : List NodeData
  edges : List (String × String)
deriving DecidableEq

/-- `G.add_node(id, **attrs)`: a new id is appended, an existing id has
its attributes replaced in place. -/
def addNode (ns : List NodeData) (nd : NodeData) : List NodeData :=
  if ns.any fun x => x.id = nd.id then ns.map fun x => if x.id = nd.id then nd else x
  else ns ++ [nd]

/-- One record's contribution to the graph: `add_node` twice and
`add_edge`. -/
def addRecord (G : Graph) (r : RawRecord) : Graph :=
  { nodes := addNode (addNode G.nodes r.n) r.m
    edges := G.edges ++ [(r.n.id, r.m.id)] }

/-- `NetworkAnalyzer.build_networkx_graph`: fold the records, adding both
endpoint nodes and an (undirected) edge for each. -/
def buildNetworkxGraph (records : List RawRecord) : Graph :=
  records.foldl addRecord ⟨[], []⟩

/-- The neighbor an edge gives to `u`, if any (`none` when `u` is not an
endpoint). -/
def adjacentTo (u : String) (e : String × String) : Option String :=
  if e.1 = u then some e.2 else if e.2 = u then some e.1 else none

/-- `G.neighbors(u)` in `nx` adjacency (first-insertion) order, each
neighbor once. -/
def neighborsList (G : Graph) (u : String) : List String :=
  (G.edges.filterMap (adjacentTo u)).dedup

theorem neighborsList_nodup (G : Graph) (u : String) : (neighborsList G u).Nodup :=
  List.nodup_dedup _

theorem mem_neighborsList {G : Graph} {u v : String} :
    v ∈ neighborsList G u ↔ (u, v) ∈ G.edges ∨ (v, u) ∈ G.edges := by
  unfold neighborsList
  rw [List.mem_dedup, List.mem_filterMap]
  constructor
  · rintro ⟨e, he, hadj⟩
    unfold adjacentTo at hadj
    by_cases h1 : e.1 = u
    · rw [if_pos h1] at hadj
      injection hadj with h2
      left
      rw [← h1, ← h2]
      exact he
    · rw [if_neg h1] at hadj
      by_cases h2 : e.2 = u
      · rw [if_pos h2] at hadj
        injection hadj with h3
        right
        rw [← h2, ← h3]
        exact he
      · rw [if_neg h2] at hadj
        exact absurd hadj (by simp)
  · rintro (he | he)
    · exact ⟨(u, v), he, by simp [adjacentTo]⟩
    · refine ⟨(v, u), he, ?_⟩
      unfold adjacentTo
      by_cases h : v = u
      · simp [h]
      · simp [h]

/-- `G.degree(u)` of `nx.Graph`: number of distinct neighbors, plus one
more if `u` has a self-loop (a self-loop contributes 2). -/
def degree (G : Graph) (u : String) : Nat :=
  (neighborsList G u).length + (if u ∈ neighborsList G u then 1 else 0)

/-- `G.has_edge(a, b)`. -/
def hasEdge (G : Graph) (a b : String) : Bool :=
  G.edges.any fun e => (e.1 = a ∧ e.2 = b) ∨ (e.1 = b ∧ e.2 = a)

theorem hasEdge_comm (G : Graph) (a b : String) : hasEdge G a b = hasEdge G b a := by
  unfold hasEdge
  congr 1
  funext e
  exact decide_eq_decide.mpr (by tauto)

/-- `set(G.neighbors(p)) & set(G.neighbors(q))`, in the adjacency order
of `p` (the claims only use its cardinality and membership). -/
def commonNeighbors (G : Graph) (p q : String) : List String :=
  (neighborsList G p).filter fun v => decide (v ∈ neighborsList G q)

theorem mem_commonNeighbors {G : Graph} {p q v : String} :
    v ∈ commonNeighbors G p q ↔ v ∈ neighborsList G p ∧ v ∈ neighborsList G q := by
  unfold commonNeighbors
  rw [List.mem_filter]
  simp

theorem commonNeighbors_length_comm (G : Graph) (p q : String) :
    (commonNeighbors G p q).length = (commonNeighbors G q p).length := by
  have h1 : (commonNeighbors G p q).Nodup :=
    (neighborsList_nodup G p).filter _
  have h2 : (commonNeighbors G q p).Nodup :=
    (neighborsList_nodup G q).filter _
  have hperm : List.Perm (commonNeighbors G p q) (commonNeighbors G q p) := by
    rw [List.perm_ext_iff_of_nodup h1 h2]
    intro v
    rw [mem_commonNeighbors, mem_commonNeighbors, and_comm]
  exact hperm.length_eq

/-- `G.nodes[id]` (first node with that id; ids are unique in graphs
built by `buildNetworkxGraph`). -/
def lookupNode (G : Graph) (id : String) : Option NodeData :=
  G.nodes.find? fun nd => nd.id = id

/-- `G.nodes[id].get('type')` (`""` when the id is absent — only reachable
for ids outside the node set, which a built graph never hands out). -/
def nodeType (G : Graph) (id : String) : String :=
  ((lookupNode G id).map fun nd => nd.type).getD ""

/-- `G.nodes[id]['name']` under the same convention. -/
def nodeName (G : Graph) (id : String) : String :=
  ((lookupNode G id).map fun nd => nd.name).getD ""

/-- Python truthiness of `text.strip()`: the stripped string is nonempty
iff some character is not whitespace. -/
def pyStripNonempty (s : String) : Bool := s.data.any fun c => !c.isWhitespace

/-- `NetworkAnalyzer._get_node_embedding`: encode
`f"{name} {description}"`, `None` when that text is whitespace-only
(`if text.strip()`). -/
def getNodeEmbedding (enc : String → List ℚ) (G : Graph) (id : String) : Option (List ℚ) :=
  match lookupNode G id with
  | none => none
  | some nd =>
    let text := nd.name ++ " " ++ nd.description
    if pyStripNonempty text then some (enc text) else none

/-- The iteration `for i, x in enumerate(l): for y in l[i+1:]`. -/
def pairs : List α → List (α × α)
  | [] => []
  | x :: xs => (xs.map fun y => (x, y)) ++ pairs xs

/-- Lexicographic (code-point) comparison of character lists: the order
Python uses on strings.  (Defined structurally so that it evaluates in
the kernel.) -/
def charListLe : List Char → List Char → Bool
  | [], _ => true
  | _ :: _, [] => false
  | c :: cs, d :: ds =>
    if c.toNat < d.toNat then true
    else if d.toNat < c.toNat then false
    else charListLe cs ds

/-- Python's `s1 <= s2` on strings. -/
def pyStrLe (a b : String) : Bool := charListLe a.data b.data

theorem char_toNat_inj {c d : Char} (h : c.toNat = d.toNat) : c = d := by
  have := congrArg Char.ofNat h
  rwa [Char.ofNat_toNat, Char.ofNat_toNat] at this

theorem charListLe_total (a b : List Char) : charListLe a b = true ∨ charListLe b a = true := by
  induction a generalizing b with
  | nil => left; rfl
  | cons c cs ih =>
    cases b with
    | nil => right; rfl
    | cons d ds =>
      unfold charListLe
      rcases Nat.lt_trichotomy c.toNat d.toNat with h | h | h
      · left; rw [if_pos h]
      · rw [if_neg (by omega), if_neg (by omega), if_neg (by omega), if_neg (by omega)]
        exact ih ds
      · right; rw [if_pos h]

theorem charListLe_antisymm {a b : List Char} (h1 : charListLe a b = true)
    (h2 : charListLe b a = true) : a = b := by
  induction a generalizing b with
  | nil =>
    cases b with
    | nil => rfl
    | cons d ds => exact absurd h2 (by simp [charListLe])
  | cons c cs ih =>
    cases b with
    | nil => exact absurd h1 (by simp [charListLe])
    | cons d ds =>
      unfold charListLe at h1 h2
      rcases Nat.lt_trichotomy c.toNat d.toNat with h | h | h
      · rw [if_neg (by omega), if_pos h] at h2
        exact absurd h2 (by simp)
      · rw [if_neg (by omega), if_neg (by omega)] at h1
        rw [if_neg (by omega), if_neg (by omega)] at h2
        rw [char_toNat_inj h, ih h1 h2]
      · rw [if_pos h] at h2
        rw [if_neg (by omega), if_pos h] at h1
        exact absurd h1 (by simp)

theorem pyStrLe_total (a b : String) : pyStrLe a b = true ∨ pyStrLe b a = true :=
  charListLe_total a.data b.data

theorem pyStrLe_antisymm {a b : String} (h1 : pyStrLe a b = true) (h2 : pyStrLe b a = true) :
    a = b := by
  cases a
  cases b
  exact congrArg String.mk (charListLe_antisymm h1 h2)

/-- `tuple(sorted([a, b]))` on two strings. -/
def normPair (a b : String) : String × String :=
  if pyStrLe a b then (a, b) else (b, a)

theorem normPair_comm (a b : String) : normPair a b = normPair b a := by
  unfold normPair
  by_cases h1 : pyStrLe a b = true
  · by_cases h2 : pyStrLe b a = true
    · rw [pyStrLe_antisymm h1 h2]
    · rw [if_pos h1, if_neg h2]
  · have h2 : pyStrLe b a = true := (pyStrLe_total a b).resolve_left h1
    rw [if_neg h1, if_pos h2]

/-! ## GapRecord and the stable descending sort

`HypothesisGap` of `src/main.py`; `missing_connections` is the
loosely-typed list of dicts, modelled as a tagged variant (edge proposal
vs. pattern descriptor); the pattern key is kept structured rather than
rendered through `str(...)`.  Python's `sorted(key=..., reverse=True)` is
a stable descending sort; it is embedded as an insertion sort that is
proved stable below. -/

/-- One entry of `missing_connections`. -/
inductive MissingConn where
  | edge (source target type_ : String)
  | pattern (patternKey : List String) (instances : Nat) (type_ : String)
deriving DecidableEq

/-- The `HypothesisGap` record.  `confidence_score` is the exact value of
the float the source stores. -/
structure HypothesisGap where
  potential_hypothesis : String
  confidence_score : SqrtVal
  supporting_evidence : List String
  missing_connections : List MissingConn
  research_priority : String
  suggested_methods : List String

/-- Insert `x` in front of the first element whose key is `≤ key x`
(so equal keys keep input order: stability). -/
def insertDesc (key : α → SqrtVal) (x : α) : List α → List α
  | [] => [x]
  | y :: ys => if (key y).le (key x) then x :: y :: ys else y :: insertDesc key x ys

/-- Stable sort, descending in `key` — the embedding of Python's
`sorted(l, key=key, reverse=True)`. -/
def stableSortDesc (key : α → SqrtVal) : List α → List α
  | [] => []
  | x :: xs => insertDesc key x (stableSortDesc key xs)

theorem insertDesc_perm (key : α → SqrtVal) (x : α) (l : List α) :
    List.Perm (insertDesc key x l) (x :: l) := by
  induction l with
  | nil => simp [insertDesc]
  | cons y ys ih =>
    unfold insertDesc
    by_cases h : (key y).le (key x)
    · simp [h]
    · simp only [if_neg h]
      exact (ih.cons y).trans (List.Perm.swap x y ys)

theorem stableSortDesc_perm (key : α → SqrtVal) (l : List α) :
    List.Perm (stableSortDesc key l) l := by
  induction l with
  | nil => simp [stableSortDesc]
  | cons x xs ih =>
    unfold stableSortDesc
    exact (insertDesc_perm key x _).trans (ih.cons x)

theorem insertDesc_sorted (key : α → SqrtVal) (x : α) (l : List α)
    (h : l.Pairwise fun a b => (key b).le (key a) = true) :
    (insertDesc key x l).Pairwise fun a b => (key b).le (key a) = true := by
  induction l with
  | nil => simp [insertDesc]
  | cons y ys ih =>
    unfold insertDesc
    rcases List.pairwise_cons.mp h with ⟨hy, hys⟩
    by_cases hle : (key y).le (key x)
    · rw [if_pos hle]
      refine List.pairwise_cons.mpr ⟨?_, h⟩
      intro z hz
      rcases List.mem_cons.mp hz with rfl | hz
      · exact hle
      · exact SqrtVal.le_trans' (hy z hz) hle
    · rw [if_neg hle]
      refine List.pairwise_cons.mpr ⟨?_, ih hys⟩
      intro z hz
      have hz' : z ∈ x :: ys := (insertDesc_perm key x ys).mem_iff.mp hz
      rcases List.mem_cons.mp hz' with rfl | hz'
      · rcases SqrtVal.le_total' (key z) (key y) with h' | h'
        · exact h'
        · exact absurd h' (by simpa using hle)
      · exact hy z hz'

theorem stableSortDesc_sorted (key : α → SqrtVal) (l : List α) :
    (stableSortDesc key l).Pairwise fun a b => (key b).le (key a) = true := by
  induction l with
  | nil => simp [stableSortDesc]
  | cons x xs ih =>
    unfold stableSortDesc
    exact insertDesc_sorted key x _ ih

theorem filter_insertDesc (key : α → SqrtVal) (c : SqrtVal) (x : α) (l : List α) :
    (insertDesc key x l).filter (fun z => (key z).valEq c) =
      if (key x).valEq c then x :: l.filter (fun z => (key z).valEq c)
      else l.filter (fun z => (key z).valEq c) := by
  induction l with
  | nil =>
    unfold insertDesc
    by_cases h : (key x).valEq c <;> simp [h]
  | cons y ys ih =>
    unfold insertDesc
    by_cases hle : (key y).le (key x)
    · rw [if_pos hle]
      by_cases hx : (key x).valEq c <;> simp [List.filter, hx]
    · rw [if_neg hle]
      by_cases hx : (key x).valEq c
      · have hy : ((key y).valEq c) = false := by
          by_contra hyc
          have hy' : (key y).valEq c = true := by
            cases hc : (key y).valEq c
            · exact absurd hc hyc
            · rfl
          -- x and y both denote c, hence key y ≤ key x, contradiction
          rcases Bool.and_eq_true _ _ |>.mp hx with ⟨hx1, hx2⟩
          rcases Bool.and_eq_true _ _ |>.mp hy' with ⟨hy1, hy2⟩
          exact absurd (SqrtVal.le_trans' hy1 hx2) (by simpa using hle)
        rw [if_pos hx]
        simp only [List.filter, hy, ih, if_pos hx]
      · rw [if_neg hx]
        simp only [List.filter, ih, if_neg hx]

theorem filter_stableSortDesc (key : α → SqrtVal) (c : SqrtVal) (l : List α) :
    (stableSortDesc key l).filter (fun z => (key z).valEq c) =
      l.filter (fun z => (key z).valEq c) := by
  induction l with
  | nil => rfl
  | cons x xs ih =>
    unfold stableSortDesc
    rw [filter_insertDesc]
    by_cases hx : (key x).valEq c <;> simp [List.filter, hx, ih]

/-! ## Detector (a): missing pathway connections -/

/-- Ids of nodes whose `type` attribute equals `t`, in node order. -/
def nodesOfType (G : Graph) (t : String) : List String :=
  (G.nodes.filter fun nd => decide (nd.type = t)).map fun nd => nd.id

/-- The record emitted by `_find_missing_pathway_connections` for a pair
`(p1, p2)` with similarity `similarity` and common neighbors `cn`. -/
def mkPathwayGap (G : Graph) (p1 p2 : String) (similarity : SqrtVal)
    (cn : List String) : HypothesisGap :=
  { potential_hypothesis :=
      "Pathway " ++ nodeName G p1 ++ " may regulate " ++ nodeName G p2 ++
        " through " ++ toString cn.length ++ " common targets"
    confidence_score := similarity.scaleQ ((cn.length : ℚ) / 10)
    supporting_evidence :=
      ["Common targets: " ++ String.intercalate ", " ((cn.take 3).map (nodeName G))]
    missing_connections := [.edge p1 p2 "REGULATES"]
    research_priority := if similarity.simGT (8/10) then "high" else "medium"
    suggested_methods :=
      ["Pathway enrichment analysis", "Co-expression analysis", "Proteomics"] }

/-- The loop body of `_find_missing_pathway_connections` for one ordered
pair of distinct pathway ids. -/
def emitPathwayPair (enc : String → List ℚ) (G : Graph) (pr : String × String) :
    Option HypothesisGap :=
  if hasEdge G pr.1 pr.2 then none
  else
    match getNodeEmbedding enc G pr.1, getNodeEmbedding enc G pr.2 with
    | some e1, some e2 =>
      let similarity := cosineSim e1 e2
      if similarity.simGT (7/10) then
        let cn := commonNeighbors G pr.1 pr.2
        if 2 ≤ cn.length then some (mkPathwayGap G pr.1 pr.2 similarity cn) else none
      else none
    | _, _ => none

/-- `NetworkAnalyzer._find_missing_pathway_connections`. -/
def findMissingPathwayConnections (enc : String → List ℚ) (G : Graph) : List HypothesisGap :=
  (pairs (nodesOfType G "pathway")).filterMap (emitPathwayPair enc G)

/-! ## Detector (b): untested method combinations -/

/-- `NetworkAnalyzer._get_successful_method_combinations`: all sorted
pairs of `method`-typed neighbors of a `result`-typed node. -/
def getSuccessfulMethodCombinations (G : Graph) : List (String × String) :=
  G.nodes.foldl
    (fun combos nd =>
      if nd.type = "result" then
        let methods := (neighborsList G nd.id).filter fun m => decide (nodeType G m = "method")
        if 2 ≤ methods.length then
          combos ++ (pairs methods).map fun pr => normPair pr.1 pr.2
        else combos
      else combos)
    []

/-- `NetworkAnalyzer._assess_method_compatibility`: cosine similarity
clamped by `max(0, ·)`, or the `0.5` default when an embedding is
unavailable. -/
def assessMethodCompatibility (enc : String → List ℚ) (G : Graph) (m1 m2 : String) : SqrtVal :=
  match getNodeEmbedding enc G m1, getNodeEmbedding enc G m2 with
  | some e1, some e2 => (cosineSim e1 e2).maxZero
  | _, _ => SqrtVal.ofRat (1/2)

/-- `NetworkAnalyzer._find_potential_application_areas`: names of up to 3
shared neighbors typed pathway/gene/hypothesis. -/
def findPotentialApplicationAreas (G : Graph) (m1 m2 : String) : List String :=
  (((commonNeighbors G m1 m2).filter fun a =>
      decide (nodeType G a ∈ (["pathway", "gene", "hypothesis"] : List String))).map
    (nodeName G)).take 3

/-- The record emitted by `_find_untested_method_combinations`. -/
def mkMethodGap (G : Graph) (m1 m2 : String) (compatibility : SqrtVal)
    (areas : List String) : HypothesisGap :=
  { potential_hypothesis :=
      "Combination " ++ nodeName G m1 ++ " + " ++ nodeName G m2 ++
        " may give new insights into " ++ (areas.headD "")
    confidence_score := compatibility
    supporting_evidence :=
      ["Methods are compatible", "Potential application: " ++ String.intercalate ", " areas]
    missing_connections := [.edge m1 m2 "COMBINES_WITH"]
    research_priority := "medium"
    suggested_methods := ["Pilot study", "Feasibility analysis"] }

/-- The loop body of `_find_untested_method_combinations` for one
ordered pair of distinct method ids. -/
def emitMethodPair (enc : String → List ℚ) (G : Graph) (pr : String × String) :
    Option HypothesisGap :=
  if normPair pr.1 pr.2 ∈ getSuccessfulMethodCombinations G then none
  else
    let compatibility := assessMethodCompatibility enc G pr.1 pr.2
    if compatibility.simGT (6/10) then
      let areas := findPotentialApplicationAreas G pr.1 pr.2
      if areas = [] then none else some (mkMethodGap G pr.1 pr.2 compatibility areas)
    else none

/-- `NetworkAnalyzer._find_untested_method_combinations`. -/
def findUntestedMethodCombinations (enc : String → List ℚ) (G : Graph) : List HypothesisGap :=
  (pairs (nodesOfType G "method")).filterMap (emitMethodPair enc G)

/-! ## Detector (c): isolated high-potential nodes -/

/-- `NetworkAnalyzer._calculate_research_potential`.  Arithmetic on a
string-valued property raises `TypeError`, hence `Except`. -/
def calcResearchPotential (nd : NodeData) : Except String ℚ := do
  let s0 : ℚ := 1/2
  let s1 ←
    match nd.properties.recent_mentions with
    | none => pure s0
    | some (.num q) => pure (s0 + min (3/10) (q / 100))
    | some (.str _) => throw "TypeError: unsupported operand type(s)"
  let s2 ←
    match nd.properties.clinical_relevance with
    | none => pure s1
    | some (.num q) => pure (s1 + q * (2/10))
    | some (.str _) => throw "TypeError: unsupported operand type(s)"
  pure (min 1 s2)

/-- One entry of the `similar_nodes` list of
`_find_similar_well_connected_nodes`. -/
structure SimilarNode where
  id : String
  name : String
  similarity : SqrtVal
  deg : Nat

/-- The loop body of `_find_similar_well_connected_nodes` for one
candidate node. -/
def similarCandidate (enc : String → List ℚ) (G : Graph) (nodeId : String)
    (other : NodeData) : Option SimilarNode :=
  if other.id ≠ nodeId ∧ other.type = nodeType G nodeId ∧ 5 < degree G other.id then
    match getNodeEmbedding enc G nodeId, getNodeEmbedding enc G other.id with
    | some e1, some e2 =>
      let sim := cosineSim e1 e2
      if sim.simGT (6/10) then
        some ⟨other.id, other.name, sim, degree G other.id⟩
      else none
    | _, _ => none
  else none

/-- `NetworkAnalyzer._find_similar_well_connected_nodes`: same-type nodes
of degree > 5 with similarity > 0.6, sorted by similarity descending
(stable), top 3. -/
def findSimilarWellConnectedNodes (enc : String → List ℚ) (G : Graph)
    (nodeId : String) : List SimilarNode :=
  (stableSortDesc (fun sn => sn.similarity)
    (G.nodes.filterMap (similarCandidate enc G nodeId))).take 3

/-- The record emitted by `_find_isolated_high_potential_nodes`. -/
def mkIsolatedGap (nd : NodeData) (potential : ℚ) (top : SimilarNode)
    (similar : List SimilarNode) : HypothesisGap :=
  { potential_hypothesis :=
      nd.name ++ " may play an important role in longevity, similarly to " ++ top.name
    confidence_score := SqrtVal.ofRat potential
    supporting_evidence :=
      ["High potential", "Similar well-studied nodes: " ++
        String.intercalate ", " ((similar.take 2).map fun sn => sn.name)]
    missing_connections := [.edge nd.id top.id "SIMILAR_FUNCTION"]
    research_priority := "high"
    suggested_methods := ["Literature review", "Functional analysis", "Comparative study"] }

/-- The node loop of `_find_isolated_high_potential_nodes`; a `TypeError`
raised by `_calculate_research_potential` propagates (there is no
`try/except` in the analyzer). -/
def isolatedLoop (enc : String → List ℚ) (G : Graph) :
    List NodeData → Except String (List HypothesisGap)
  | [] => .ok []
  | nd :: rest =>
    if degree G nd.id ≤ 2 ∧ nd.type ∈ (["gene", "pathway", "method"] : List String) then
      match calcResearchPotential nd with
      | .error e => .error e
      | .ok potential =>
        if 7/10 < potential then
          match findSimilarWellConnectedNodes enc G nd.id with
          | [] => isolatedLoop enc G rest
          | top :: more =>
            (isolatedLoop enc G rest).map fun gaps =>
              mkIsolatedGap nd potential top (top :: more) :: gaps
        else isolatedLoop enc G rest
    else isolatedLoop enc G rest

/-- `NetworkAnalyzer._find_isolated_high_potential_nodes`. -/
def findIsolatedHighPotentialNodes (enc : String → List ℚ) (G : Graph) :
    Except String (List HypothesisGap) :=
  isolatedLoop enc G G.nodes

/-! ## Detector (d): recurring unexplained patterns -/

/-- All `i < j < k` triples of a list. -/
def triples : List α → List (α × α × α)
  | [] => []
  | x :: xs => ((pairs xs).map fun pr => (x, pr.1, pr.2)) ++ triples xs

/-- The size-3 cliques delivered by `nx.enumerate_all_cliques`, as member
lists (each triangle once; member order is immaterial to the claims). -/
def triangles (G : Graph) : List (List String) :=
  ((triples (G.nodes.map fun nd => nd.id)).filter fun t =>
      hasEdge G t.1 t.2.1 && hasEdge G t.1 t.2.2 && hasEdge G t.2.1 t.2.2).map
    fun t => [t.1, t.2.1, t.2.2]

/-- Insertion sort of strings, ascending: Python `sorted` on the type
triple. -/
def insertStr (s : String) : List String → List String
  | [] => [s]
  | y :: ys => if pyStrLe s y then s :: y :: ys else y :: insertStr s ys

/-- `sorted(l)` for strings. -/
def sortStrings (l : List String) : List String := l.foldr insertStr []

/-- Append a triangle to its pattern group, preserving dict key-insertion
order (`pattern_groups` in `_find_pattern_gaps`). -/
def addToGroup (key : List String) (tri : List String) :
    List (List String × List (List String)) → List (List String × List (List String))
  | [] => [(key, [tri])]
  | (k, ts) :: rest =>
    if k = key then (k, ts ++ [tri]) :: rest else (k, ts) :: addToGroup key tri rest

/-- The `pattern_groups` dictionary: triangles grouped by the sorted
tuple of their member types. -/
def patternGroups (G : Graph) : List (List String × List (List String)) :=
  (triangles G).foldl
    (fun acc tri => addToGroup (sortStrings (tri.map (nodeType G))) tri acc) []

/-- `NetworkAnalyzer._has_explaining_hypothesis`: some `hypothesis`-typed
node is adjacent to a member of at least `0.7 * len(instances)`
instances. -/
def hasExplainingHypothesis (G : Graph) (instances : List (List String)) : Bool :=
  (nodesOfType G "hypothesis").any fun hyp =>
    decide ((instances.length : ℚ) * (7/10) ≤
      ((instances.countP fun inst => inst.any fun v => hasEdge G hyp v : Nat) : ℚ))

/-- The record emitted by `_find_pattern_gaps` for one pattern group. -/
def mkPatternGap (G : Graph) (patternKey : List String)
    (instances : List (List String)) : HypothesisGap :=
  { potential_hypothesis :=
      "There is a general mechanism for the pattern " ++
        String.intercalate " + " patternKey ++ " in longevity research"
    confidence_score := SqrtVal.ofRat (min (9/10) ((instances.length : ℚ) / 10))
    supporting_evidence :=
      ["The pattern repeats " ++ toString instances.length ++ " times",
        "Examples: " ++
          String.intercalate ", " ((instances.take 3).map fun inst => nodeName G (inst.headD ""))]
    missing_connections := [.pattern patternKey instances.length "GENERAL_MECHANISM"]
    research_priority := "medium"
    suggested_methods := ["Meta-analysis", "Systems biology approach", "Pathway analysis"] }

/-- `NetworkAnalyzer._find_pattern_gaps`. -/
def findPatternGaps (G : Graph) : List HypothesisGap :=
  (patternGroups G).filterMap fun grp =>
    if 3 ≤ grp.2.length then
      if hasExplainingHypothesis G grp.2 then none else some (mkPatternGap G grp.1 grp.2)
    else none

/-! ## The ranker: `find_hypothesis_gaps` -/

/-- `NetworkAnalyzer.find_hypothesis_gaps`: concatenate the four
detectors' outputs in order (a), (b), (c), (d) and stable-sort by
confidence descending.  An exception raised inside a detector
propagates — there is no isolation in the source. -/
def findHypothesisGaps (enc : String → List ℚ) (G : Graph) :
    Except String (List HypothesisGap) :=
  match findIsolatedHighPotentialNodes enc G with
  | .error e => .error e
  | .ok gapsC =>
    .ok (stableSortDesc (fun g => g.confidence_score)
      (findMissingPathwayConnections enc G ++ findUntestedMethodCombinations enc G ++
        gapsC ++ findPatternGaps G))

/-! ## Counting lemmas for the pair iteration -/

theorem mem_pairs {l : List α} {pr : α × α} (h : pr ∈ pairs l) : pr.1 ∈ l ∧ pr.2 ∈ l := by
  induction l with
  | nil => simp [pairs] at h
  | cons x xs ih =>
    unfold pairs at h
    rcases List.mem_append.mp h with h | h
    · rcases List.mem_map.mp h with ⟨y, hy, rfl⟩
      exact ⟨List.mem_cons_self x xs, List.mem_cons_of_mem x hy⟩
    · rcases ih h with ⟨h1, h2⟩
      exact ⟨List.mem_cons_of_mem x h1, List.mem_cons_of_mem x h2⟩

theorem pairs_ne_of_nodup {l : List α} (hl : l.Nodup) {pr : α × α} (h : pr ∈ pairs l) :
    pr.1 ≠ pr.2 := by
  induction l with
  | nil => simp [pairs] at h
  | cons x xs ih =>
    rcases List.nodup_cons.mp hl with ⟨hx, hxs⟩
    unfold pairs at h
    rcases List.mem_append.mp h with h | h
    · rcases List.mem_map.mp h with ⟨y, hy, rfl⟩
      intro hc
      have hc' : x = y := hc
      exact hx (hc' ▸ hy)
    · exact ih hxs h

theorem mem_pairs_or {l : List α} {a b : α} (ha : a ∈ l) (hb : b ∈ l) (hab : a ≠ b) :
    (a, b) ∈ pairs l ∨ (b, a) ∈ pairs l := by
  induction l with
  | nil => simp at ha
  | cons x xs ih =>
    unfold pairs
    rcases List.mem_cons.mp ha with rfl | ha'
    · have hb' : b ∈ xs := by
        rcases List.mem_cons.mp hb with rfl | hb'
        · exact absurd rfl hab
        · exact hb'
      left
      exact List.mem_append.mpr (Or.inl (List.mem_map.mpr ⟨b, hb', rfl⟩))
    · rcases List.mem_cons.mp hb with rfl | hb'
      · right
        exact List.mem_append.mpr (Or.inl (List.mem_map.mpr ⟨a, ha', rfl⟩))
      · rcases ih ha' hb' with h | h
        · exact Or.inl (List.mem_append.mpr (Or.inr h))
        · exact Or.inr (List.mem_append.mpr (Or.inr h))

/-- In the `i < j` pair iteration over a duplicate-free list, each
unordered pair of distinct members shows up exactly once. -/
theorem countP_pairs_pair [DecidableEq α] {l : List α} (hl : l.Nodup) {a b : α}
    (ha : a ∈ l) (hb : b ∈ l) (hab : a ≠ b) :
    (pairs l).countP (fun pr => decide (pr = (a, b) ∨ pr = (b, a))) = 1 := by
  induction l with
  | nil => simp at ha
  | cons x xs ih =>
    rcases List.nodup_cons.mp hl with ⟨hx, hxs⟩
    unfold pairs
    rw [List.countP_append, List.countP_map]
    rcases List.mem_cons.mp ha with rfl | ha'
    · have hb' : b ∈ xs := by
        rcases List.mem_cons.mp hb with rfl | hb'
        · exact absurd rfl hab
        · exact hb'
      have h1 : xs.countP ((fun pr => decide (pr = (a, b) ∨ pr = (b, a))) ∘ fun y => (a, y)) =
          xs.countP fun y => y == b := by
        apply List.countP_congr
        intro y hy
        simp [Function.comp, Prod.ext_iff, hab]
      have h2 : (pairs xs).countP (fun pr => decide (pr = (a, b) ∨ pr = (b, a))) = 0 := by
        rw [List.countP_eq_zero]
        intro pr hpr
        have hsub := mem_pairs hpr
        simp only [decide_eq_true_eq]
        rintro (rfl | rfl)
        · exact hx hsub.1
        · exact hx hsub.2
      have h3 : xs.countP (fun y => y == b) = 1 := List.count_eq_one_of_mem hxs hb'
      rw [h1, h2, h3]
    · rcases List.mem_cons.mp hb with rfl | hb'
      · have h1 : xs.countP ((fun pr => decide (pr = (a, b) ∨ pr = (b, a))) ∘ fun y => (b, y)) =
            xs.countP fun y => y == a := by
          apply List.countP_congr
          intro y hy
          simp [Function.comp, Prod.ext_iff, Ne.symm hab]
        have h2 : (pairs xs).countP (fun pr => decide (pr = (a, b) ∨ pr = (b, a))) = 0 := by
          rw [List.countP_eq_zero]
          intro pr hpr
          have hsub := mem_pairs hpr
          simp only [decide_eq_true_eq]
          rintro (rfl | rfl)
          · exact hx hsub.2
          · exact hx hsub.1
        have h3 : xs.countP (fun y => y == a) = 1 := List.count_eq_one_of_mem hxs ha'
        rw [h1, h2, h3]
      · have hxa : x ≠ a := fun hc => hx (hc ▸ ha')
        have hxb : x ≠ b := fun hc => hx (hc ▸ hb')
        have h1 : xs.countP ((fun pr => decide (pr = (a, b) ∨ pr = (b, a))) ∘ fun y => (x, y)) = 0 := by
          rw [List.countP_eq_zero]
          intro y hy
          simp [Function.comp, Prod.ext_iff, hxa, hxb]
        rw [h1, ih hxs ha' hb']

/-! ## Lookup lemmas -/

theorem find?_id_eq_of_mem {nd : NodeData} :
    ∀ ns : List NodeData, (ns.map NodeData.id).Nodup → nd ∈ ns →
      ns.find? (fun x => decide (x.id = nd.id)) = some nd
  | [], _, hnd => by simp at hnd
  | y :: ys, hids, hnd => by
    rw [List.map_cons, List.nodup_cons] at hids
    rcases List.mem_cons.mp hnd with rfl | hnd'
    · simp [List.find?]
    · have hne : ¬(y.id = nd.id) := by
        intro hc
        exact hids.1 (hc ▸ List.mem_map.mpr ⟨nd, hnd', rfl⟩)
      rw [List.find?_cons_of_neg _ (by simpa using hne)]
      exact find?_id_eq_of_mem ys hids.2 hnd'

theorem lookupNode_eq_of_mem {G : Graph} (hids : (G.nodes.map NodeData.id).Nodup)
    {nd : NodeData} (hnd : nd ∈ G.nodes) : lookupNode G nd.id = some nd :=
  find?_id_eq_of_mem G.nodes hids hnd

theorem mem_nodesOfType {G : Graph} {t x : String} :
    x ∈ nodesOfType G t ↔ ∃ nd ∈ G.nodes, nd.type = t ∧ nd.id = x := by
  unfold nodesOfType
  rw [List.mem_map]
  constructor
  · rintro ⟨nd, hnd, rfl⟩
    rcases List.mem_filter.mp hnd with ⟨h1, h2⟩
    simp only [decide_eq_true_eq] at h2
    exact ⟨nd, h1, h2, rfl⟩
  · rintro ⟨nd, h1, h2, rfl⟩
    exact ⟨nd, List.mem_filter.mpr ⟨h1, by simp [h2]⟩, rfl⟩

theorem nodesOfType_nodup {G : Graph} (hids : (G.nodes.map NodeData.id).Nodup) (t : String) :
    (nodesOfType G t).Nodup := by
  unfold nodesOfType
  have hsub : List.Sublist ((G.nodes.filter fun nd => decide (nd.type = t)).map fun nd => nd.id)
      (G.nodes.map fun nd => nd.id) :=
    (List.filter_sublist _).map _
  exact hids.sublist hsub

theorem nodeType_of_mem_nodesOfType {G : Graph} (hids : (G.nodes.map NodeData.id).Nodup)
    {t x : String} (hx : x ∈ nodesOfType G t) : nodeType G x = t := by
  rcases mem_nodesOfType.mp hx with ⟨nd, hnd, htype, rfl⟩
  unfold nodeType
  rw [lookupNode_eq_of_mem hids hnd]
  simp [htype]

/-! ## Characterisation of detector (a) -/

/-- Does a gap record propose an edge between `p` and `q` (in either
orientation)? -/
def proposesPair (p q : String) (g : HypothesisGap) : Bool :=
  match g.missing_connections with
  | [MissingConn.edge s t _] => decide ((s = p ∧ t = q) ∨ (s = q ∧ t = p))
  | _ => false

theorem proposesPair_mkPathwayGap (G : Graph) (a b p q : String) (sim : SqrtVal)
    (cn : List String) :
    proposesPair p q (mkPathwayGap G a b sim cn) =
      decide ((a = p ∧ b = q) ∨ (a = q ∧ b = p)) := rfl

theorem emitPathwayPair_eq_some (enc : String → List ℚ) (G : Graph) (pr : String × String)
    (g : HypothesisGap) :
    emitPathwayPair enc G pr = some g ↔
      hasEdge G pr.1 pr.2 = false ∧
      ∃ e1 e2, getNodeEmbedding enc G pr.1 = some e1 ∧ getNodeEmbedding enc G pr.2 = some e2 ∧
        (cosineSim e1 e2).simGT (7/10) = true ∧ 2 ≤ (commonNeighbors G pr.1 pr.2).length ∧
        g = mkPathwayGap G pr.1 pr.2 (cosineSim e1 e2) (commonNeighbors G pr.1 pr.2) := by
  unfold emitPathwayPair
  cases hEdge : hasEdge G pr.1 pr.2 with
  | true => simp [hEdge]
  | false =>
    simp only [Bool.false_eq_true, if_false]
    cases hE1 : getNodeEmbedding enc G pr.1 with
    | none => simp [hE1]
    | some e1 =>
      cases hE2 : getNodeEmbedding enc G pr.2 with
      | none => simp [hE1, hE2]
      | some e2 =>
        simp only [hE1, hE2]
        by_cases hSim : (cosineSim e1 e2).simGT (7/10) = true
        · by_cases hLen : 2 ≤ (commonNeighbors G pr.1 pr.2).length
          · simp only [hSim, if_true, if_pos hLen, Option.some.injEq]
            constructor
            · intro h
              exact ⟨trivial, e1, e2, by simp, by simp, hSim, hLen, h.symm⟩
            · rintro ⟨-, e1', e2', he1', he2', -, -, rfl⟩
              have h1 : e1 = e1' := by simpa using he1'
              have h2 : e2 = e2' := by simpa using he2'
              rw [h1, h2]
          · simp only [hSim, if_true, if_neg hLen]
            constructor
            · intro h; exact absurd h (by simp)
            · rintro ⟨-, e1', e2', he1', he2', -, hLen', -⟩
              exact absurd hLen' hLen
        · simp only [Bool.not_eq_true] at hSim
          simp only [hSim, Bool.false_eq_true, if_false]
          constructor
          · intro h; exact absurd h (by simp)
          · rintro ⟨-, e1', e2', he1', he2', hSim', -, -⟩
            have h1 : e1 = e1' := by simpa using he1'
            have h2 : e2 = e2' := by simpa using he2'
            rw [← h1, ← h2] at hSim'
            rw [hSim'] at hSim
            exact absurd hSim (by simp)

theorem option_map_getD_eq_true {β : Type} {o : Option β} {f : β → Bool} :
    ((o.map f).getD false) = true ↔ ∃ b, o = some b ∧ f b = true := by
  cases o <;> simp

/-- **C1.** For every unordered pair of distinct `pathway` nodes with no
existing edge and both embeddings available, detector (a) emits exactly
one GapRecord iff the cosine similarity is strictly above `0.7` and
there are at least 2 common neighbors; the emitted record carries
`confidence_score = similarity * (|common_neighbors| / 10)` and
`research_priority = "high"` iff `similarity > 0.8`, else `"medium"`. -/
theorem pathway_pair_emission (enc : String → List ℚ) (G : Graph) (p q : String)
    (e1 e2 : List ℚ) (hids : (G.nodes.map NodeData.id).Nodup)
    (hp : p ∈ nodesOfType G "pathway") (hq : q ∈ nodesOfType G "pathway") (hpq : p ≠ q)
    (hedge : hasEdge G p q = false)
    (he1 : getNodeEmbedding enc G p = some e1) (he2 : getNodeEmbedding enc G q = some e2) :
    (((7 : ℝ)/10 < (cosineSim e1 e2).toReal ∧ 2 ≤ (commonNeighbors G p q).length →
        (findMissingPathwayConnections enc G).countP (proposesPair p q) = 1) ∧
      (¬((7 : ℝ)/10 < (cosineSim e1 e2).toReal ∧ 2 ≤ (commonNeighbors G p q).length) →
        (findMissingPathwayConnections enc G).countP (proposesPair p q) = 0)) ∧
    ∀ g ∈ findMissingPathwayConnections enc G, proposesPair p q g = true →
      g.confidence_score = (cosineSim e1 e2).scaleQ (((commonNeighbors G p q).length : ℚ) / 10) ∧
      ((8 : ℝ)/10 < (cosineSim e1 e2).toReal → g.research_priority = "high") ∧
      ((cosineSim e1 e2).toReal ≤ (8 : ℝ)/10 → g.research_priority = "medium") := by
  have hbridge7 : (cosineSim e1 e2).simGT (7/10) = true ↔
      (7 : ℝ)/10 < (cosineSim e1 e2).toReal := by
    rw [SqrtVal.simGT_iff _ (by norm_num)]
    norm_num
  have hbridge8 : (cosineSim e1 e2).simGT (8/10) = true ↔
      (8 : ℝ)/10 < (cosineSim e1 e2).toReal := by
    rw [SqrtVal.simGT_iff _ (by norm_num)]
    norm_num
  have hPnd : (nodesOfType G "pathway").Nodup := nodesOfType_nodup hids _
  have hedge' : hasEdge G q p = false := by rw [hasEdge_comm]; exact hedge
  -- the count over the pair loop
  have hcount0 : (findMissingPathwayConnections enc G).countP (proposesPair p q) =
      (pairs (nodesOfType G "pathway")).countP
        fun pr => ((emitPathwayPair enc G pr).map (proposesPair p q)).getD false := by
    unfold findMissingPathwayConnections
    exact List.countP_filterMap _ _ _
  have hcong : (pairs (nodesOfType G "pathway")).countP
        (fun pr => ((emitPathwayPair enc G pr).map (proposesPair p q)).getD false) =
      (pairs (nodesOfType G "pathway")).countP
        (fun pr => decide (pr = (p, q) ∨ pr = (q, p)) &&
          ((cosineSim e1 e2).simGT (7/10) && decide (2 ≤ (commonNeighbors G p q).length))) := by
    apply List.countP_congr
    intro pr hpr
    rw [option_map_getD_eq_true, Bool.and_eq_true, Bool.and_eq_true,
      decide_eq_true_eq, decide_eq_true_eq]
    by_cases hc1 : pr = (p, q)
    · subst hc1
      constructor
      · rintro ⟨g, hg, hprop⟩
        obtain ⟨-, e1', e2', he1', he2', hSim', hLen', -⟩ :=
          (emitPathwayPair_eq_some enc G (p, q) g).mp hg
        have h1 : e1' = e1 := by
          have := he1'.symm.trans he1
          simpa using this
        have h2 : e2' = e2 := by
          have := he2'.symm.trans he2
          simpa using this
        rw [h1, h2] at hSim'
        exact ⟨Or.inl rfl, hSim', hLen'⟩
      · rintro ⟨-, hSim, hLen⟩
        refine ⟨mkPathwayGap G p q (cosineSim e1 e2) (commonNeighbors G p q), ?_, ?_⟩
        · exact (emitPathwayPair_eq_some enc G (p, q) _).mpr
            ⟨hedge, e1, e2, he1, he2, hSim, hLen, rfl⟩
        · rw [proposesPair_mkPathwayGap]
          simp
    · by_cases hc2 : pr = (q, p)
      · subst hc2
        constructor
        · rintro ⟨g, hg, hprop⟩
          obtain ⟨-, e1', e2', he1', he2', hSim', hLen', -⟩ :=
            (emitPathwayPair_eq_some enc G (q, p) g).mp hg
          have h1 : e1' = e2 := by
            have := he1'.symm.trans he2
            simpa using this
          have h2 : e2' = e1 := by
            have := he2'.symm.trans he1
            simpa using this
          rw [h1, h2, cosineSim_comm e2 e1] at hSim'
          rw [commonNeighbors_length_comm G q p] at hLen'
          exact ⟨Or.inr rfl, hSim', hLen'⟩
        · rintro ⟨-, hSim, hLen⟩
          refine ⟨mkPathwayGap G q p (cosineSim e2 e1) (commonNeighbors G q p), ?_, ?_⟩
          · refine (emitPathwayPair_eq_some enc G (q, p) _).mpr
              ⟨hedge', e2, e1, he2, he1, ?_, ?_, rfl⟩
            · rw [cosineSim_comm e2 e1]
              exact hSim
            · rw [commonNeighbors_length_comm G q p]
              exact hLen
          · rw [proposesPair_mkPathwayGap]
            simp
      · constructor
        · rintro ⟨g, hg, hprop⟩
          obtain ⟨-, e1', e2', -, -, -, -, rfl⟩ :=
            (emitPathwayPair_eq_some enc G pr g).mp hg
          rw [proposesPair_mkPathwayGap] at hprop
          rcases of_decide_eq_true hprop with ⟨h1, h2⟩ | ⟨h1, h2⟩
          · exact absurd (Prod.ext h1 h2) hc1
          · exact absurd (Prod.ext h1 h2) hc2
        · rintro ⟨hor, -, -⟩
          rcases hor with rfl | rfl
          · exact absurd rfl hc1
          · exact absurd rfl hc2
  constructor
  · constructor
    · rintro ⟨hr7, hlen⟩
      rw [hcount0, hcong]
      have hb : ((cosineSim e1 e2).simGT (7/10) &&
          decide (2 ≤ (commonNeighbors G p q).length)) = true := by
        rw [Bool.and_eq_true, decide_eq_true_eq]
        exact ⟨hbridge7.mpr hr7, hlen⟩
      calc (pairs (nodesOfType G "pathway")).countP
            (fun pr => decide (pr = (p, q) ∨ pr = (q, p)) &&
              ((cosineSim e1 e2).simGT (7/10) && decide (2 ≤ (commonNeighbors G p q).length)))
          = (pairs (nodesOfType G "pathway")).countP
              (fun pr => decide (pr = (p, q) ∨ pr = (q, p))) := by
            apply List.countP_congr
            intro pr hpr
            rw [hb, Bool.and_true]
        _ = 1 := countP_pairs_pair hPnd hp hq hpq
    · intro hnc
      rw [hcount0, hcong]
      have hb : ((cosineSim e1 e2).simGT (7/10) &&
          decide (2 ≤ (commonNeighbors G p q).length)) = false := by
        rw [Bool.and_eq_false_iff]
        by_cases h7 : (7 : ℝ)/10 < (cosineSim e1 e2).toReal
        · right
          rcases not_and_or.mp hnc with h | h
          · exact absurd h7 h
          · simpa using h
        · left
          cases hc : (cosineSim e1 e2).simGT (7/10)
          · rfl
          · exact absurd (hbridge7.mp hc) h7
      rw [List.countP_eq_zero]
      intro pr hpr
      rw [hb]
      simp
  · intro g hg hprop
    obtain ⟨pr, hpr, hemit⟩ := List.mem_filterMap.mp hg
    obtain ⟨hE, e1', e2', he1', he2', hSim', hLen', rfl⟩ :=
      (emitPathwayPair_eq_some enc G pr g).mp hemit
    rw [proposesPair_mkPathwayGap] at hprop
    rcases of_decide_eq_true hprop with ⟨h1, h2⟩ | ⟨h1, h2⟩
    · rw [h1] at he1'
      rw [h2] at he2'
      rw [h1, h2]
      have hee1 : e1' = e1 := by
        have := he1'.symm.trans he1
        simpa using this
      have hee2 : e2' = e2 := by
        have := he2'.symm.trans he2
        simpa using this
      rw [hee1, hee2]
      refine ⟨rfl, ?_, ?_⟩
      · intro h8
        show (if (cosineSim e1 e2).simGT (8/10) = true then "high" else "medium") = "high"
        rw [if_pos (hbridge8.mpr h8)]
      · intro h8
        show (if (cosineSim e1 e2).simGT (8/10) = true then "high" else "medium") = "medium"
        rw [if_neg ?_]
        intro hc
        exact absurd (hbridge8.mp hc) (not_lt.mpr h8)
    · rw [h1] at he1'
      rw [h2] at he2'
      rw [h1, h2]
      have hee1 : e1' = e2 := by
        have := he1'.symm.trans he2
        simpa using this
      have hee2 : e2' = e1 := by
        have := he2'.symm.trans he1
        simpa using this
      rw [hee1, hee2, cosineSim_comm e2 e1]
      refine ⟨?_, ?_, ?_⟩
      · show (cosineSim e1 e2).scaleQ (((commonNeighbors G q p).length : ℚ) / 10) = _
        rw [commonNeighbors_length_comm G q p]
      · intro h8
        show (if (cosineSim e1 e2).simGT (8/10) = true then "high" else "medium") = "high"
        rw [if_pos (hbridge8.mpr h8)]
      · intro h8
        show (if (cosineSim e1 e2).simGT (8/10) = true then "high" else "medium") = "medium"
        rw [if_neg ?_]
        intro hc
        exact absurd (hbridge8.mp hc) (not_lt.mpr h8)

/-! ## Characterisation of detector (b) for the exclusion claim -/

theorem emitMethodPair_some_then {enc : String → List ℚ} {G : Graph} {pr : String × String}
    {g : HypothesisGap} (h : emitMethodPair enc G pr = some g) :
    normPair pr.1 pr.2 ∉ getSuccessfulMethodCombinations G ∧
      g.missing_connections = [.edge pr.1 pr.2 "COMBINES_WITH"] ∧
      g.research_priority = "medium" := by
  unfold emitMethodPair at h
  by_cases hmem : normPair pr.1 pr.2 ∈ getSuccessfulMethodCombinations G
  · rw [if_pos hmem] at h
    exact absurd h (by simp)
  · rw [if_neg hmem] at h
    refine ⟨hmem, ?_⟩
    by_cases hSim : (assessMethodCompatibility enc G pr.1 pr.2).simGT (6/10) = true
    · rw [if_pos hSim] at h
      by_cases hAreas : findPotentialApplicationAreas G pr.1 pr.2 = []
      · rw [if_pos hAreas] at h
        exact absurd h (by simp)
      · rw [if_neg hAreas] at h
        injection h with h
        rw [← h]
        exact ⟨rfl, rfl⟩
    · rw [if_neg (by simpa using hSim)] at h
      exact absurd h (by simp)

theorem foldl_mem_mono {α β : Type} (step : List β → α → List β)
    (hmono : ∀ acc a x, x ∈ acc → x ∈ step acc a) :
    ∀ (l : List α) (acc : List β) (x : β), x ∈ acc → x ∈ l.foldl step acc
  | [], _, _, hx => by simpa using hx
  | a :: l, acc, x, hx => by
    rw [List.foldl_cons]
    exact foldl_mem_mono step hmono l (step acc a) x (hmono acc a x hx)

theorem foldl_mem_of_step {α β : Type} (step : List β → α → List β)
    (hmono : ∀ acc a x, x ∈ acc → x ∈ step acc a) {l : List α} {nd : α} (hnd : nd ∈ l)
    {x : β} (hx : ∀ acc, x ∈ step acc nd) : ∀ acc, x ∈ l.foldl step acc := by
  induction l with
  | nil => simp at hnd
  | cons y ys ih =>
    intro acc
    rcases List.mem_cons.mp hnd with rfl | hnd'
    · rw [List.foldl_cons]
      exact foldl_mem_mono step hmono ys (step acc nd) x (hx acc)
    · rw [List.foldl_cons]
      exact ih hnd' _

theorem two_mem_length_le {l : List String} (hl : l.Nodup) {a b : String}
    (ha : a ∈ l) (hb : b ∈ l) (hab : a ≠ b) : 2 ≤ l.length := by
  rcases l with - | ⟨x, xs⟩
  · simp at ha
  · rcases xs with - | ⟨y, ys⟩
    · rcases List.mem_singleton.mp ha with rfl
      rcases List.mem_singleton.mp hb with rfl
      exact absurd rfl hab
    · simp

/-- Any unordered pair of distinct `method`-typed neighbors of a
`result` node is in the "successful" set. -/
theorem successful_of_result (G : Graph) {R : NodeData} (hR : R ∈ G.nodes)
    (hRt : R.type = "result") {M1 M2 : String}
    (h1 : M1 ∈ neighborsList G R.id) (h2 : M2 ∈ neighborsList G R.id)
    (ht1 : nodeType G M1 = "method") (ht2 : nodeType G M2 = "method") (hne : M1 ≠ M2) :
    normPair M1 M2 ∈ getSuccessfulMethodCombinations G := by
  unfold getSuccessfulMethodCombinations
  apply foldl_mem_of_step _ _ hR _
  · intro acc a x hx
    by_cases h : a.type = "result"
    · rw [if_pos h]
      by_cases hlen : 2 ≤ ((neighborsList G a.id).filter fun m => decide (nodeType G m = "method")).length
      · rw [if_pos hlen]
        exact List.mem_append.mpr (Or.inl hx)
      · rw [if_neg hlen]
        exact hx
    · rw [if_neg h]
      exact hx
  · intro acc
    rw [if_pos hRt]
    have hm1 : M1 ∈ (neighborsList G R.id).filter fun m => decide (nodeType G m = "method") :=
      List.mem_filter.mpr ⟨h1, by simp [ht1]⟩
    have hm2 : M2 ∈ (neighborsList G R.id).filter fun m => decide (nodeType G m = "method") :=
      List.mem_filter.mpr ⟨h2, by simp [ht2]⟩
    have hnd : ((neighborsList G R.id).filter fun m => decide (nodeType G m = "method")).Nodup :=
      (neighborsList_nodup G R.id).filter _
    rw [if_pos (two_mem_length_le hnd hm1 hm2 hne)]
    apply List.mem_append.mpr
    right
    rcases mem_pairs_or hm1 hm2 hne with h | h
    · exact List.mem_map.mpr ⟨(M1, M2), h, rfl⟩
    · refine List.mem_map.mpr ⟨(M2, M1), h, ?_⟩
      exact (normPair_comm M2 M1) ▸ rfl

/-- **C5.** Detector (b) never proposes a pair of `method` nodes that
are both neighbors of a common `result` node: such a pair is in the
"successful" set and is excluded. -/
theorem successful_combination_never_proposed (enc : String → List ℚ) (G : Graph)
    (R : NodeData) (M1 M2 : String) (hR : R ∈ G.nodes) (hRt : R.type = "result")
    (h1 : M1 ∈ neighborsList G R.id) (h2 : M2 ∈ neighborsList G R.id)
    (ht1 : nodeType G M1 = "method") (ht2 : nodeType G M2 = "method") (hne : M1 ≠ M2) :
    (findUntestedMethodCombinations enc G).countP (proposesPair M1 M2) = 0 := by
  rw [List.countP_eq_zero]
  intro g hg
  obtain ⟨pr, hpr, hemit⟩ := List.mem_filterMap.mp hg
  obtain ⟨hnotmem, hmiss, -⟩ := emitMethodPair_some_then hemit
  intro hprop
  unfold proposesPair at hprop
  rw [hmiss] at hprop
  rcases of_decide_eq_true hprop with ⟨ha, hb⟩ | ⟨ha, hb⟩
  · rw [ha, hb] at hnotmem
    exact hnotmem (successful_of_result G hR hRt h1 h2 ht1 ht2 hne)
  · rw [ha, hb] at hnotmem
    rw [normPair_comm] at hnotmem
    exact hnotmem (successful_of_result G hR hRt h1 h2 ht1 ht2 hne)

/-! ## Claim C6: method compatibility value -/

/-- **C6 (amended).** The compatibility score of detector (b) equals
`max(0, cosine_similarity)` when both embeddings are available (the
source applies `max(0, ...)`, so a negative cosine is clamped to `0`),
and `0.5` when either embedding is unavailable. -/
theorem method_compatibility_value (enc : String → List ℚ) (G : Graph) (m1 m2 : String) :
    (∀ e1 e2, getNodeEmbedding enc G m1 = some e1 → getNodeEmbedding enc G m2 = some e2 →
      (assessMethodCompatibility enc G m1 m2).toReal = max 0 (cosineSim e1 e2).toReal) ∧
    ((getNodeEmbedding enc G m1 = none ∨ getNodeEmbedding enc G m2 = none) →
      (assessMethodCompatibility enc G m1 m2).toReal = 1/2) := by
  constructor
  · intro e1 e2 h1 h2
    unfold assessMethodCompatibility
    rw [h1, h2]
    exact SqrtVal.toReal_maxZero _
  · intro h
    unfold assessMethodCompatibility
    rcases h with h | h
    · rw [h]
      rw [SqrtVal.toReal_ofRat]
      norm_num
    · rw [h]
      cases getNodeEmbedding enc G m1 <;>
        · rw [SqrtVal.toReal_ofRat]
          norm_num

def propsNone : NodeProps := ⟨none, none⟩

def recsC6 : List RawRecord :=
  [⟨⟨"m1", "method", "M1", "d1", propsNone⟩, ⟨"m2", "method", "M2", "d2", propsNone⟩,
    "RELATES_TO", 1⟩]

def gC6 : Graph := buildNetworkxGraph recsC6

def encC6 : String → List ℚ := fun s =>
  if s = "M1 d1" then [1] else if s = "M2 d2" then [-1] else []

/-- **C6 (counterexample).** With embeddings of cosine similarity `-1`,
the compatibility score is `0`, not the negative similarity the claim
asserts. -/
theorem method_compatibility_negative_cex :
    getNodeEmbedding encC6 gC6 "m1" = some [1] ∧
    getNodeEmbedding encC6 gC6 "m2" = some [-1] ∧
    (cosineSim [1] [-1]).toReal = -1 ∧
    (assessMethodCompatibility encC6 gC6 "m1" "m2").toReal = 0 ∧
    (assessMethodCompatibility encC6 gC6 "m1" "m2").toReal ≠ (cosineSim [1] [-1]).toReal := by
  have hm1 : getNodeEmbedding encC6 gC6 "m1" = some [1] := rfl
  have hm2 : getNodeEmbedding encC6 gC6 "m2" = some [-1] := rfl
  have hcos : cosineSim [1] [-1] = SqrtVal.ofRat (-1) :=
    SqrtVal.ext' (by norm_num [cosineSim, dot, normSq, SqrtVal.ofRat])
      (by norm_num [cosineSim, dot, normSq, SqrtVal.ofRat])
  have hassess : assessMethodCompatibility encC6 gC6 "m1" "m2" = SqrtVal.ofRat 0 := by
    unfold assessMethodCompatibility
    rw [hm1, hm2]
    show (cosineSim [1] [-1]).maxZero = SqrtVal.ofRat 0
    rw [hcos]
    rfl
  refine ⟨hm1, hm2, ?_, ?_, ?_⟩
  · rw [hcos, SqrtVal.toReal_ofRat]
    norm_num
  · rw [hassess, SqrtVal.toReal_ofRat]
    norm_num
  · rw [hassess, hcos, SqrtVal.toReal_ofRat, SqrtVal.toReal_ofRat]
    norm_num

/-- Witness for C6's amended theorem at the concrete graph. -/
theorem method_compatibility_value_witness :
    (assessMethodCompatibility encC6 gC6 "m1" "m2").toReal =
      max 0 (cosineSim [1] [-1]).toReal :=
  (method_compatibility_value encC6 gC6 "m1" "m2").1 [1] [-1] rfl rfl

/-! ## Step lemmas for the detector (c) node loop -/

theorem isolatedLoop_cons_skip {enc : String → List ℚ} {G : Graph} {nd : NodeData}
    {rest : List NodeData}
    (h : ¬(degree G nd.id ≤ 2 ∧ nd.type ∈ (["gene", "pathway", "method"] : List String))) :
    isolatedLoop enc G (nd :: rest) = isolatedLoop enc G rest := by
  conv_lhs => unfold isolatedLoop
  rw [if_neg h]

theorem isolatedLoop_cons_lowpot {enc : String → List ℚ} {G : Graph} {nd : NodeData}
    {rest : List NodeData} {p : ℚ}
    (hgate : degree G nd.id ≤ 2 ∧ nd.type ∈ (["gene", "pathway", "method"] : List String))
    (hcalc : calcResearchPotential nd = .ok p) (hp : ¬(7/10 < p)) :
    isolatedLoop enc G (nd :: rest) = isolatedLoop enc G rest := by
  conv_lhs => unfold isolatedLoop
  rw [if_pos hgate, hcalc]
  dsimp only
  rw [if_neg hp]

theorem isolatedLoop_cons_nosimilar {enc : String → List ℚ} {G : Graph} {nd : NodeData}
    {rest : List NodeData} {p : ℚ}
    (hgate : degree G nd.id ≤ 2 ∧ nd.type ∈ (["gene", "pathway", "method"] : List String))
    (hcalc : calcResearchPotential nd = .ok p) (hp : 7/10 < p)
    (hsim : findSimilarWellConnectedNodes enc G nd.id = []) :
    isolatedLoop enc G (nd :: rest) = isolatedLoop enc G rest := by
  conv_lhs => unfold isolatedLoop
  rw [if_pos hgate, hcalc]
  dsimp only
  rw [if_pos hp, hsim]

theorem isolatedLoop_cons_emit {enc : String → List ℚ} {G : Graph} {nd : NodeData}
    {rest : List NodeData} {p : ℚ} {top : SimilarNode} {more : List SimilarNode}
    (hgate : degree G nd.id ≤ 2 ∧ nd.type ∈ (["gene", "pathway", "method"] : List String))
    (hcalc : calcResearchPotential nd = .ok p) (hp : 7/10 < p)
    (hsim : findSimilarWellConnectedNodes enc G nd.id = top :: more) :
    isolatedLoop enc G (nd :: rest) =
      (isolatedLoop enc G rest).map fun gaps => mkIsolatedGap nd p top (top :: more) :: gaps := by
  conv_lhs => unfold isolatedLoop
  rw [if_pos hgate, hcalc]
  dsimp only
  rw [if_pos hp, hsim]

theorem isolatedLoop_cons_error {enc : String → List ℚ} {G : Graph} {nd : NodeData}
    {rest : List NodeData} {e : String}
    (hgate : degree G nd.id ≤ 2 ∧ nd.type ∈ (["gene", "pathway", "method"] : List String))
    (hcalc : calcResearchPotential nd = .error e) :
    isolatedLoop enc G (nd :: rest) = .error e := by
  conv_lhs => unfold isolatedLoop
  rw [if_pos hgate, hcalc]

/-! ## Claim C7: how research_priority is really determined -/

theorem isolatedLoop_ok_priority {enc : String → List ℚ} {G : Graph} :
    ∀ (l : List NodeData) (gaps : List HypothesisGap), isolatedLoop enc G l = .ok gaps →
      ∀ g ∈ gaps, g.research_priority = "high"
  | [], gaps, h => by
    unfold isolatedLoop at h
    injection h with h
    rw [← h]
    intro g hg
    simp at hg
  | nd :: rest, gaps, h => by
    unfold isolatedLoop at h
    by_cases hgate : degree G nd.id ≤ 2 ∧ nd.type ∈ (["gene", "pathway", "method"] : List String)
    · rw [if_pos hgate] at h
      cases hcalc : calcResearchPotential nd with
      | error e =>
        rw [hcalc] at h
        exact absurd h (by simp)
      | ok p =>
        rw [hcalc] at h
        dsimp only at h
        by_cases hpot : 7/10 < p
        · rw [if_pos hpot] at h
          cases hsim : findSimilarWellConnectedNodes enc G nd.id with
          | nil =>
            rw [hsim] at h
            exact isolatedLoop_ok_priority rest gaps h
          | cons top more =>
            rw [hsim] at h
            cases hrest : isolatedLoop enc G rest with
            | error e =>
              rw [hrest] at h
              exact absurd h (by simp [Except.map])
            | ok gaps' =>
              rw [hrest] at h
              simp only [Except.map] at h
              injection h with h
              rw [← h]
              intro g hg
              rcases List.mem_cons.mp hg with rfl | hg'
              · rfl
              · exact isolatedLoop_ok_priority rest gaps' hrest g hg'
        · rw [if_neg hpot] at h
          exact isolatedLoop_ok_priority rest gaps h
    · rw [if_neg hgate] at h
      exact isolatedLoop_ok_priority rest gaps h

theorem findPatternGaps_priority {G : Graph} {g : HypothesisGap}
    (hg : g ∈ findPatternGaps G) : g.research_priority = "medium" := by
  obtain ⟨grp, hgrp, hemit⟩ := List.mem_filterMap.mp hg
  by_cases h3 : 3 ≤ grp.2.length
  · rw [if_pos h3] at hemit
    by_cases hexp : hasExplainingHypothesis G grp.2 = true
    · rw [if_pos hexp] at hemit
      exact absurd hemit (by simp)
    · rw [if_neg hexp] at hemit
      injection hemit with hemit
      rw [← hemit]
      rfl
  · rw [if_neg h3] at hemit
    exact absurd hemit (by simp)

theorem findMissingPathwayConnections_priority {enc : String → List ℚ} {G : Graph}
    {g : HypothesisGap} (hg : g ∈ findMissingPathwayConnections enc G) :
    g.research_priority = "high" ∨ g.research_priority = "medium" := by
  obtain ⟨pr, hpr, hemit⟩ := List.mem_filterMap.mp hg
  obtain ⟨-, e1, e2, -, -, -, -, rfl⟩ := (emitPathwayPair_eq_some enc G pr g).mp hemit
  show (if (cosineSim e1 e2).simGT (8/10) = true then "high" else "medium") = "high" ∨
    (if (cosineSim e1 e2).simGT (8/10) = true then "high" else "medium") = "medium"
  by_cases h : (cosineSim e1 e2).simGT (8/10) = true
  · exact Or.inl (by rw [if_pos h])
  · exact Or.inr (by rw [if_neg h])

/-- **C7 (amended).** `research_priority` is not a function of
`confidence_score`: it is fixed per detector — detector (a) uses the
similarity (not the confidence) threshold `0.8` for high/medium,
detector (b) always emits `"medium"`, detector (c) always `"high"`,
detector (d) always `"medium"`.  Records with equal confidence can
therefore carry different priorities (see the counterexample). -/
theorem research_priority_per_detector (enc : String → List ℚ) (G : Graph) :
    (∀ g ∈ findMissingPathwayConnections enc G,
        g.research_priority = "high" ∨ g.research_priority = "medium") ∧
    (∀ g ∈ findUntestedMethodCombinations enc G, g.research_priority = "medium") ∧
    (∀ gaps, findIsolatedHighPotentialNodes enc G = .ok gaps →
        ∀ g ∈ gaps, g.research_priority = "high") ∧
    (∀ g ∈ findPatternGaps G, g.research_priority = "medium") := by
  refine ⟨?_, ?_, ?_, ?_⟩
  · intro g hg
    exact findMissingPathwayConnections_priority hg
  · intro g hg
    obtain ⟨pr, hpr, hemit⟩ := List.mem_filterMap.mp hg
    exact (emitMethodPair_some_then hemit).2.2
  · intro gaps h
    exact isolatedLoop_ok_priority G.nodes gaps h
  · intro g hg
    exact findPatternGaps_priority hg

/-! ## A concrete graph on which detectors (b) and (c) emit records of
equal confidence but different priority -/

def ndM1g7 : NodeData := ⟨"m1", "method", "M1", "", propsNone⟩
def ndPg7 : NodeData := ⟨"p", "pathway", "P", "", propsNone⟩
def ndM2g7 : NodeData := ⟨"m2", "method", "M2", "", propsNone⟩
def ndAg7 : NodeData := ⟨"a", "gene", "A", "", ⟨some (.num (1850/73)), none⟩⟩
def ndF1g7 : NodeData := ⟨"f1", "other", "F1", "", propsNone⟩
def ndBg7 : NodeData := ⟨"b", "gene", "B", "", propsNone⟩
def ndF2g7 : NodeData := ⟨"f2", "other", "F2", "", propsNone⟩
def ndF3g7 : NodeData := ⟨"f3", "other", "F3", "", propsNone⟩
def ndF4g7 : NodeData := ⟨"f4", "other", "F4", "", propsNone⟩
def ndF5g7 : NodeData := ⟨"f5", "other", "F5", "", propsNone⟩
def ndF6g7 : NodeData := ⟨"f6", "other", "F6", "", propsNone⟩

def records7 : List RawRecord :=
  [⟨ndM1g7, ndPg7, "RELATES_TO", 1⟩, ⟨ndM2g7, ndPg7, "RELATES_TO", 1⟩,
   ⟨ndAg7, ndF1g7, "RELATES_TO", 1⟩, ⟨ndBg7, ndF1g7, "RELATES_TO", 1⟩,
   ⟨ndBg7, ndF2g7, "RELATES_TO", 1⟩, ⟨ndBg7, ndF3g7, "RELATES_TO", 1⟩,
   ⟨ndBg7, ndF4g7, "RELATES_TO", 1⟩, ⟨ndBg7, ndF5g7, "RELATES_TO", 1⟩,
   ⟨ndBg7, ndF6g7, "RELATES_TO", 1⟩]

def g7 : Graph := buildNetworkxGraph records7

def enc7 : String → List ℚ := fun s =>
  if s = "M1 " then [1, 0] else if s = "M2 " then [55, 48]
  else if s = "A " then [1, 0] else if s = "B " then [4, 3] else []

/-- The potential score `_calculate_research_potential` computes for the
gene node `a` (`recent_mentions = 1850/73`); its value is `55/73`. -/
def pA : ℚ := min 1 (1/2 + min (3/10) (1850/73 / 100))

def snB7 : SimilarNode := ⟨"b", "B", cosineSim [1, 0] [4, 3], 6⟩

def recB7 : HypothesisGap :=
  mkMethodGap g7 "m1" "m2" (assessMethodCompatibility enc7 g7 "m1" "m2")
    (findPotentialApplicationAreas g7 "m1" "m2")

def recC7 : HypothesisGap := mkIsolatedGap ndAg7 pA snB7 [snB7]

theorem emitMethodPair_eval {enc : String → List ℚ} {G : Graph} {pr : String × String}
    (hmem : normPair pr.1 pr.2 ∉ getSuccessfulMethodCombinations G)
    (hsim : (assessMethodCompatibility enc G pr.1 pr.2).simGT (6/10) = true)
    (hareas : findPotentialApplicationAreas G pr.1 pr.2 ≠ []) :
    emitMethodPair enc G pr = some (mkMethodGap G pr.1 pr.2
      (assessMethodCompatibility enc G pr.1 pr.2)
      (findPotentialApplicationAreas G pr.1 pr.2)) := by
  unfold emitMethodPair
  rw [if_neg hmem, if_pos hsim, if_neg hareas]

theorem assess7_eq : assessMethodCompatibility enc7 g7 "m1" "m2" =
    (cosineSim [1, 0] [55, 48]).maxZero := rfl

theorem maxZero7_eq : (cosineSim [1, 0] [55, 48]).maxZero = cosineSim [1, 0] [55, 48] := by
  unfold SqrtVal.maxZero
  rw [if_neg (by norm_num [cosineSim, normSq]), if_neg (by norm_num [cosineSim, dot])]

theorem sim7_GT6 : (assessMethodCompatibility enc7 g7 "m1" "m2").simGT (6/10) = true := by
  rw [assess7_eq, maxZero7_eq]
  norm_num [SqrtVal.simGT, cosineSim, dot, normSq]

theorem detectB7_eq : findUntestedMethodCombinations enc7 g7 = [recB7] := by
  unfold findUntestedMethodCombinations
  show List.filterMap (emitMethodPair enc7 g7) [("m1", "m2")] = [recB7]
  rw [List.filterMap_cons_some (emitMethodPair_eval (by decide) sim7_GT6 (by decide))]
  rfl

theorem simAB_GT6 : (cosineSim [1, 0] [4, 3]).simGT (6/10) = true := by
  norm_num [SqrtVal.simGT, cosineSim, dot, normSq]

theorem candB7_eq : similarCandidate enc7 g7 "a" ndBg7 = some snB7 := by
  show (if (cosineSim [1, 0] [4, 3]).simGT (6/10) = true
      then some ⟨"b", "B", cosineSim [1, 0] [4, 3], degree g7 "b"⟩ else none) = some snB7
  rw [if_pos simAB_GT6]
  rfl

theorem findSimilar7_eq : findSimilarWellConnectedNodes enc7 g7 "a" = [snB7] := by
  unfold findSimilarWellConnectedNodes
  show (stableSortDesc (fun sn => sn.similarity)
      (List.filterMap (similarCandidate enc7 g7 "a")
        [ndM1g7, ndPg7, ndM2g7, ndAg7, ndF1g7, ndBg7, ndF2g7, ndF3g7, ndF4g7, ndF5g7,
          ndF6g7])).take 3 = [snB7]
  rw [List.filterMap_cons_none rfl, List.filterMap_cons_none rfl, List.filterMap_cons_none rfl,
    List.filterMap_cons_none rfl, List.filterMap_cons_none rfl,
    List.filterMap_cons_some candB7_eq, List.filterMap_cons_none rfl,
    List.filterMap_cons_none rfl, List.filterMap_cons_none rfl, List.filterMap_cons_none rfl,
    List.filterMap_cons_none rfl]
  rfl

theorem calcM1g7_eq : calcResearchPotential ndM1g7 = .ok (min 1 (1/2)) := rfl

theorem calcPg7_eq : calcResearchPotential ndPg7 = .ok (min 1 (1/2)) := rfl

theorem calcM2g7_eq : calcResearchPotential ndM2g7 = .ok (min 1 (1/2)) := rfl

theorem calcAg7_eq : calcResearchPotential ndAg7 = .ok pA := rfl

theorem lowpot_half : ¬((7 : ℚ)/10 < min 1 (1/2)) := by norm_num [min_def]

theorem potA_GT : (7 : ℚ)/10 < pA := by norm_num [pA, min_def]

theorem detectC7_eq : findIsolatedHighPotentialNodes enc7 g7 = .ok [recC7] := by
  unfold findIsolatedHighPotentialNodes
  show isolatedLoop enc7 g7
      [ndM1g7, ndPg7, ndM2g7, ndAg7, ndF1g7, ndBg7, ndF2g7, ndF3g7, ndF4g7, ndF5g7, ndF6g7] =
    .ok [recC7]
  rw [isolatedLoop_cons_lowpot (by decide) calcM1g7_eq lowpot_half,
    isolatedLoop_cons_lowpot (by decide) calcPg7_eq lowpot_half,
    isolatedLoop_cons_lowpot (by decide) calcM2g7_eq lowpot_half,
    isolatedLoop_cons_emit (by decide) calcAg7_eq potA_GT findSimilar7_eq,
    isolatedLoop_cons_skip (by decide), isolatedLoop_cons_skip (by decide),
    isolatedLoop_cons_skip (by decide), isolatedLoop_cons_skip (by decide),
    isolatedLoop_cons_skip (by decide), isolatedLoop_cons_skip (by decide),
    isolatedLoop_cons_skip (by decide)]
  rfl

theorem conf7_valEq :
    SqrtVal.valEq recB7.confidence_score recC7.confidence_score = true := by
  show SqrtVal.valEq (assessMethodCompatibility enc7 g7 "m1" "m2") (SqrtVal.ofRat pA) = true
  rw [assess7_eq, maxZero7_eq]
  norm_num [SqrtVal.valEq, SqrtVal.le, SqrtVal.n, SqrtVal.r, cosineSim, dot, normSq,
    SqrtVal.ofRat, pA, min_def]

/-- **C7 (counterexample).** On a concrete graph, detector (b) emits a
record of confidence `55/73` with priority `"medium"` while detector (c)
emits a record of the same confidence `55/73` with priority `"high"`:
`research_priority` is not determined by `confidence_score`. -/
theorem priority_not_confidence_function_cex :
    recB7 ∈ findUntestedMethodCombinations enc7 g7 ∧
    findIsolatedHighPotentialNodes enc7 g7 = .ok [recC7] ∧
    recB7.confidence_score.toReal = recC7.confidence_score.toReal ∧
    recB7.research_priority = "medium" ∧ recC7.research_priority = "high" ∧
    recB7.research_priority ≠ recC7.research_priority := by
  refine ⟨?_, detectC7_eq, ?_, rfl, rfl, by decide⟩
  · rw [detectB7_eq]
    exact List.mem_singleton.mpr rfl
  · exact (SqrtVal.valEq_iff _ _).mp conf7_valEq

/-! ## Claim C3: the ranked list -/

/-- **C3.** A successful analysis returns exactly the concatenation of
the four detectors' outputs (in order (a), (b), (c), (d)) sorted by
confidence: the result is a permutation of the concatenation, its
confidence values are non-increasing, and the sort is stable — the
records of any one confidence value appear in detector-then-emission
order. -/
theorem ranked_output_is_stable_sorted_concat (enc : String → List ℚ) (G : Graph)
    (gapsC out : List HypothesisGap)
    (hc : findIsolatedHighPotentialNodes enc G = .ok gapsC)
    (hout : findHypothesisGaps enc G = .ok out) :
    List.Perm out (findMissingPathwayConnections enc G ++ findUntestedMethodCombinations enc G ++
      gapsC ++ findPatternGaps G) ∧
    out.Pairwise (fun a b => b.confidence_score.toReal ≤ a.confidence_score.toReal) ∧
    ∀ c, out.filter (fun g => g.confidence_score.valEq c) =
      (findMissingPathwayConnections enc G ++ findUntestedMethodCombinations enc G ++
        gapsC ++ findPatternGaps G).filter (fun g => g.confidence_score.valEq c) := by
  unfold findHypothesisGaps at hout
  rw [hc] at hout
  injection hout with hout
  subst hout
  refine ⟨stableSortDesc_perm _ _, ?_, fun c => filter_stableSortDesc _ c _⟩
  have := stableSortDesc_sorted (fun g : HypothesisGap => g.confidence_score)
    (findMissingPathwayConnections enc G ++ findUntestedMethodCombinations enc G ++
      gapsC ++ findPatternGaps G)
  exact this.imp fun h => (SqrtVal.le_iff _ _).mp h

/-- The full analysis output on the concrete graph `g7`. -/
def out7 : List HypothesisGap :=
  stableSortDesc (fun g => g.confidence_score)
    (findMissingPathwayConnections enc7 g7 ++ findUntestedMethodCombinations enc7 g7 ++
      [recC7] ++ findPatternGaps g7)

theorem findHypothesisGaps7_eq : findHypothesisGaps enc7 g7 = .ok out7 := by
  unfold findHypothesisGaps
  rw [detectC7_eq]
  rfl

/-- Witness for C3 at the concrete graph `g7`. -/
theorem ranked_output_is_stable_sorted_concat_witness :
    List.Perm out7 (findMissingPathwayConnections enc7 g7 ++
      findUntestedMethodCombinations enc7 g7 ++ [recC7] ++ findPatternGaps g7) :=
  (ranked_output_is_stable_sorted_concat enc7 g7 [recC7] out7 detectC7_eq
    findHypothesisGaps7_eq).1

/-! ## Claim C9: determinism -/

/-- **C9.** For a fixed record snapshot and a fixed (deterministic)
embedding function, two successful analysis runs produce the same
multiset of GapRecords with the same confidence scores.  The embedding
is a pure function of the graph and the encoder, so the two runs' values
coincide. -/
theorem analysis_deterministic (enc : String → List ℚ) (records : List RawRecord)
    (out1 out2 : List HypothesisGap)
    (h1 : findHypothesisGaps enc (buildNetworkxGraph records) = .ok out1)
    (h2 : findHypothesisGaps enc (buildNetworkxGraph records) = .ok out2) :
    (↑out1 : Multiset HypothesisGap) = (↑out2 : Multiset HypothesisGap) ∧
    out1.map (fun g => g.confidence_score) = out2.map (fun g => g.confidence_score) := by
  have h : out1 = out2 := by
    have := h1.symm.trans h2
    injection this
  rw [h]
  exact ⟨rfl, rfl⟩

/-- Witness for C9 at the concrete snapshot `records7`. -/
theorem analysis_deterministic_witness :
    (↑out7 : Multiset HypothesisGap) = (↑out7 : Multiset HypothesisGap) ∧
    out7.map (fun g => g.confidence_score) = out7.map (fun g => g.confidence_score) :=
  analysis_deterministic enc7 records7 out7 out7 findHypothesisGaps7_eq findHypothesisGaps7_eq

/-! ## Claim C2: a detector failure aborts the whole analysis -/

theorem isolatedLoop_error_of_mem {enc : String → List ℚ} {G : Graph} {nd : NodeData}
    {e : String}
    (hdeg : degree G nd.id ≤ 2) (hty : nd.type ∈ (["gene", "pathway", "method"] : List String))
    (hcalc : calcResearchPotential nd = .error e) :
    ∀ l : List NodeData, nd ∈ l → ∃ e', isolatedLoop enc G l = .error e'
  | [], hnd => by simp at hnd
  | y :: rest, hnd => by
    rcases List.mem_cons.mp hnd with rfl | hnd'
    · exact ⟨e, isolatedLoop_cons_error ⟨hdeg, hty⟩ hcalc⟩
    · have IH := @isolatedLoop_error_of_mem enc G nd e hdeg hty hcalc rest hnd'
      by_cases hgate : degree G y.id ≤ 2 ∧ y.type ∈ (["gene", "pathway", "method"] : List String)
      · cases hcalc' : calcResearchPotential y with
        | error e'' => exact ⟨e'', isolatedLoop_cons_error hgate hcalc'⟩
        | ok p =>
          by_cases hpot : 7/10 < p
          · cases hsim : findSimilarWellConnectedNodes enc G y.id with
            | nil =>
              obtain ⟨e', he'⟩ := IH
              exact ⟨e', by rw [isolatedLoop_cons_nosimilar hgate hcalc' hpot hsim, he']⟩
            | cons top more =>
              obtain ⟨e', he'⟩ := IH
              refine ⟨e', ?_⟩
              rw [isolatedLoop_cons_emit hgate hcalc' hpot hsim, he']
              rfl
          · obtain ⟨e', he'⟩ := IH
            exact ⟨e', by rw [isolatedLoop_cons_lowpot hgate hcalc' hpot, he']⟩
      · obtain ⟨e', he'⟩ := IH
        exact ⟨e', by rw [isolatedLoop_cons_skip hgate, he']⟩

/-- **C2 (amended).** There is no isolation between detectors: when
`_calculate_research_potential` raises on some examined node (degree
`≤ 2`, type gene/pathway/method), the exception propagates out of
`find_hypothesis_gaps` and the whole analysis aborts — no ranked list,
with or without the other detectors' records, is returned. -/
theorem detector_failure_aborts_analysis (enc : String → List ℚ) (G : Graph)
    (nd : NodeData) (e : String) (hnd : nd ∈ G.nodes) (hdeg : degree G nd.id ≤ 2)
    (hty : nd.type ∈ (["gene", "pathway", "method"] : List String))
    (hcalc : calcResearchPotential nd = .error e) :
    ∃ e', findHypothesisGaps enc G = .error e' := by
  obtain ⟨e', he'⟩ := isolatedLoop_error_of_mem hdeg hty hcalc G.nodes hnd
  refine ⟨e', ?_⟩
  unfold findHypothesisGaps findIsolatedHighPotentialNodes
  rw [he']

/-- A graph with three `result`-typed triangles (so detector (d) has a
record to emit) and a gene node whose `clinical_relevance` is the string
`"high"`, which makes detector (c) raise `TypeError`. -/
def ndA2 : NodeData := ⟨"a", "result", "A", "", propsNone⟩
def ndB2 : NodeData := ⟨"b", "result", "B", "", propsNone⟩
def ndC2 : NodeData := ⟨"c", "result", "C", "", propsNone⟩
def ndD2 : NodeData := ⟨"d", "result", "D", "", propsNone⟩
def ndE2 : NodeData := ⟨"e", "result", "E", "", propsNone⟩
def ndZ2 : NodeData := ⟨"z", "gene", "Z", "", ⟨none, some (.str "high")⟩⟩
def ndW2 : NodeData := ⟨"w", "other", "W", "", propsNone⟩

def recsC2 : List RawRecord :=
  [⟨ndA2, ndB2, "RELATES_TO", 1⟩, ⟨ndA2, ndC2, "RELATES_TO", 1⟩,
   ⟨ndB2, ndC2, "RELATES_TO", 1⟩, ⟨ndA2, ndD2, "RELATES_TO", 1⟩,
   ⟨ndB2, ndD2, "RELATES_TO", 1⟩, ⟨ndA2, ndE2, "RELATES_TO", 1⟩,
   ⟨ndB2, ndE2, "RELATES_TO", 1⟩, ⟨ndZ2, ndW2, "RELATES_TO", 1⟩]

def gC2 : Graph := buildNetworkxGraph recsC2

def encC2 : String → List ℚ := fun _ => []

/-- **C2 (counterexample).** On `gC2` the analysis aborts with the
`TypeError` raised inside detector (c), even though detector (d) has a
record to contribute: no ranked list at all is returned. -/
theorem detector_isolation_cex :
    findHypothesisGaps encC2 gC2 = .error "TypeError: unsupported operand type(s)" ∧
    findPatternGaps gC2 ≠ [] := by
  constructor
  · rfl
  · have hlen : (findPatternGaps gC2).length = 1 := rfl
    intro h
    rw [h] at hlen
    simp at hlen

/-- Witness for C2's amended theorem at the concrete graph `gC2`. -/
theorem detector_failure_aborts_analysis_witness :
    ∃ e', findHypothesisGaps encC2 gC2 = .error e' :=
  detector_failure_aborts_analysis encC2 gC2 ndZ2 "TypeError: unsupported operand type(s)"
    (by decide) (by decide) (by decide) rfl

/-! ## Claim C4: pattern-frequency boundary of detector (d) -/

/-- Does a gap record describe the type pattern `pat`? -/
def isPatternRec (pat : List String) (g : HypothesisGap) : Bool :=
  match g.missing_connections with
  | [MissingConn.pattern k _ _] => decide (k = pat)
  | _ => false

theorem addToGroup_map_fst (key : List String) (tri : List String)
    (acc : List (List String × List (List String))) :
    (addToGroup key tri acc).map Prod.fst =
      if key ∈ acc.map Prod.fst then acc.map Prod.fst else acc.map Prod.fst ++ [key] := by
  induction acc with
  | nil => simp [addToGroup]
  | cons hd rest ih =>
    obtain ⟨k, ts⟩ := hd
    unfold addToGroup
    by_cases hk : k = key
    · subst hk
      simp
    · rw [if_neg hk]
      simp only [List.map_cons, ih]
      by_cases hmem : key ∈ rest.map Prod.fst
      · rw [if_pos hmem, if_pos (by simp [hmem])]
      · rw [if_neg hmem, if_neg (by simp [hmem, Ne.symm hk])]
        simp

theorem addToGroup_keys_nodup (key : List String) (tri : List String)
    (acc : List (List String × List (List String))) (h : (acc.map Prod.fst).Nodup) :
    ((addToGroup key tri acc).map Prod.fst).Nodup := by
  rw [addToGroup_map_fst]
  by_cases hmem : key ∈ acc.map Prod.fst
  · rwa [if_pos hmem]
  · rw [if_neg hmem]
    apply List.Nodup.append h (by simp)
    intro x hx hx'
    rcases List.mem_singleton.mp hx' with rfl
    exact hmem hx

theorem patternGroups_keys_nodup (G : Graph) : ((patternGroups G).map Prod.fst).Nodup := by
  unfold patternGroups
  generalize triangles G = ts
  have hgen : ∀ (l : List (List String)) (acc : List (List String × List (List String))),
      (acc.map Prod.fst).Nodup →
      ((l.foldl (fun acc tri => addToGroup (sortStrings (tri.map (nodeType G))) tri acc)
        acc).map Prod.fst).Nodup := by
    intro l
    induction l with
    | nil => intro acc h; simpa using h
    | cons tri rest ih =>
      intro acc h
      rw [List.foldl_cons]
      exact ih _ (addToGroup_keys_nodup _ _ _ h)
  exact hgen ts [] (by simp)

theorem keys_nodup_val_unique {α β : Type} {l : List (α × β)} (h : (l.map Prod.fst).Nodup)
    {k : α} {v1 v2 : β} (h1 : (k, v1) ∈ l) (h2 : (k, v2) ∈ l) : v1 = v2 := by
  induction l with
  | nil => simp at h1
  | cons hd rest ih =>
    rw [List.map_cons, List.nodup_cons] at h
    rcases List.mem_cons.mp h1 with rfl | h1'
    · rcases List.mem_cons.mp h2 with heq | h2'
      · have := (Prod.mk.injEq _ _ _ _).mp heq.symm
        exact this.2
      · exact absurd (List.mem_map.mpr ⟨(k, v2), h2', rfl⟩) h.1
    · rcases List.mem_cons.mp h2 with rfl | h2'
      · exact absurd (List.mem_map.mpr ⟨(k, v1), h1', rfl⟩) h.1
      · exact ih h.2 h1' h2'

theorem countP_patternGaps (G : Graph) (pat : List String) (insts : List (List String))
    (hmem : (pat, insts) ∈ patternGroups G) :
    (findPatternGaps G).countP (isPatternRec pat) =
      if 3 ≤ insts.length ∧ hasExplainingHypothesis G insts = false then 1 else 0 := by
  have hkeys := patternGroups_keys_nodup G
  have hnodup : (patternGroups G).Nodup := hkeys.of_map _
  unfold findPatternGaps
  rw [List.countP_filterMap]
  have hcong : (patternGroups G).countP
        (fun grp => ((if 3 ≤ grp.2.length then
            if hasExplainingHypothesis G grp.2 then none else some (mkPatternGap G grp.1 grp.2)
          else none).map (isPatternRec pat)).getD false) =
      (patternGroups G).countP (fun grp => decide (grp = (pat, insts)) &&
        (decide (3 ≤ insts.length) && !hasExplainingHypothesis G insts)) := by
    apply List.countP_congr
    intro grp hgrp
    obtain ⟨g1, g2⟩ := grp
    by_cases heq : (g1, g2) = (pat, insts)
    · rw [heq]
      rw [heq] at hgrp
      by_cases h3 : 3 ≤ insts.length
      · by_cases hexp : hasExplainingHypothesis G insts = true
        · simp [h3, hexp, isPatternRec]
        · have hexp' : hasExplainingHypothesis G insts = false := by
            cases h : hasExplainingHypothesis G insts
            · rfl
            · exact absurd h hexp
          simp [h3, hexp', isPatternRec, mkPatternGap]
      · simp [h3]
    · constructor
      · intro h
        exfalso
        by_cases h3 : 3 ≤ g2.length
        · rw [if_pos h3] at h
          by_cases hexp : hasExplainingHypothesis G g2 = true
          · rw [if_pos hexp] at h
            simp at h
          · rw [if_neg hexp] at h
            simp [isPatternRec, mkPatternGap] at h
            subst h
            have : g2 = insts := keys_nodup_val_unique hkeys hgrp hmem
            exact heq (by rw [this])
        · rw [if_neg h3] at h
          simp at h
      · intro h
        rw [Bool.and_eq_true, decide_eq_true_eq] at h
        exact absurd h.1 heq
  rw [hcong]
  by_cases hc : 3 ≤ insts.length ∧ hasExplainingHypothesis G insts = false
  · rw [if_pos hc]
    have hb : (decide (3 ≤ insts.length) && !hasExplainingHypothesis G insts) = true := by
      rw [Bool.and_eq_true, decide_eq_true_eq]
      exact ⟨hc.1, by rw [hc.2]; rfl⟩
    calc (patternGroups G).countP (fun grp => decide (grp = (pat, insts)) &&
          (decide (3 ≤ insts.length) && !hasExplainingHypothesis G insts))
        = (patternGroups G).countP (fun grp => decide (grp = (pat, insts))) := by
          apply List.countP_congr
          intro grp hgrp
          rw [hb, Bool.and_true]
      _ = @List.count _ instBEqOfDecidableEq (pat, insts) (patternGroups G) := rfl
      _ = 1 := List.count_eq_one_of_mem hnodup hmem
  · rw [if_neg hc]
    rw [List.countP_eq_zero]
    intro grp hgrp
    rw [Bool.and_eq_true, decide_eq_true_eq, Bool.and_eq_true, decide_eq_true_eq]
    rintro ⟨-, h3, hexp⟩
    apply hc
    refine ⟨h3, ?_⟩
    cases h : hasExplainingHypothesis G insts
    · rfl
    · rw [h] at hexp
      exact absurd hexp (by simp)

/-- **C4.** For each type pattern of triangles: a pattern with exactly
two instances never yields a record from detector (d); a pattern with at
least three instances and no explaining hypothesis (no
`hypothesis`-typed node adjacent to a member of 70% or more of the
instances) yields exactly one record, with
`confidence_score = min(0.9, instance_count / 10)`. -/
theorem pattern_gap_emission (G : Graph) (pat : List String) (insts : List (List String))
    (hmem : (pat, insts) ∈ patternGroups G) :
    (insts.length = 2 → (findPatternGaps G).countP (isPatternRec pat) = 0) ∧
    (3 ≤ insts.length → hasExplainingHypothesis G insts = false →
      (findPatternGaps G).countP (isPatternRec pat) = 1 ∧
      ∀ g ∈ findPatternGaps G, isPatternRec pat g = true →
        g.confidence_score = SqrtVal.ofRat (min (9/10) ((insts.length : ℚ) / 10))) := by
  constructor
  · intro h2
    rw [countP_patternGaps G pat insts hmem, if_neg]
    rintro ⟨h3, -⟩
    omega
  · intro h3 hexp
    refine ⟨by rw [countP_patternGaps G pat insts hmem, if_pos ⟨h3, hexp⟩], ?_⟩
    intro g hg hpat
    obtain ⟨grp, hgrp, hemit⟩ := List.mem_filterMap.mp hg
    obtain ⟨g1, g2⟩ := grp
    by_cases h3' : 3 ≤ g2.length
    · rw [if_pos h3'] at hemit
      by_cases hexp' : hasExplainingHypothesis G g2 = true
      · rw [if_pos hexp'] at hemit
        exact absurd hemit (by simp)
      · rw [if_neg hexp'] at hemit
        injection hemit with hemit
        rw [← hemit] at hpat
        simp [isPatternRec, mkPatternGap] at hpat
        subst hpat
        have hval : g2 = insts := keys_nodup_val_unique (patternGroups_keys_nodup G) hgrp hmem
        rw [← hemit, hval]
        rfl
    · rw [if_neg h3'] at hemit
      exact absurd hemit (by simp)

/-- Witness for C4: the concrete graph `gC2` holds three triangles of
the type pattern (result, result, result) and no hypothesis node. -/
theorem pattern_gap_emission_witness :
    (findPatternGaps gC2).countP (isPatternRec ["result", "result", "result"]) = 1 ∧
    ∀ g ∈ findPatternGaps gC2, isPatternRec ["result", "result", "result"] g = true →
      g.confidence_score = SqrtVal.ofRat (min (9/10)
        ((([["a", "b", "c"], ["a", "b", "d"], ["a", "b", "e"]].length : Nat) : ℚ) / 10)) :=
  (pattern_gap_emission gC2 ["result", "result", "result"]
    [["a", "b", "c"], ["a", "b", "d"], ["a", "b", "e"]] (by decide)).2 (by decide) (by decide)

/-! ## Claim C8: the similarity computation on zero-norm input -/

/-- **C8.** The detectors' cosine-similarity computation is safe on
zero-norm input: with a zero-norm embedding on either side the result is
the NaN marker, every threshold comparison on it is false and the
candidate pair is therefore skipped (never a crash); with nonzero norms
the value lies in `[-1, 1]` (Cauchy–Schwarz). -/
theorem cosine_similarity_guarded (a b : List ℚ) (h : a.length = b.length) :
    ((normSq a = 0 ∨ normSq b = 0) → ∀ t : ℚ, 0 ≤ t → (cosineSim a b).simGT t = false) ∧
    (normSq a ≠ 0 → normSq b ≠ 0 →
      -1 ≤ (cosineSim a b).toReal ∧ (cosineSim a b).toReal ≤ 1) := by
  constructor
  · intro h0 t ht
    have hr : (cosineSim a b).radSq = 0 := by
      show normSq a * normSq b = 0
      rcases h0 with h0 | h0 <;> simp [h0]
    unfold SqrtVal.simGT
    rw [if_pos hr]
  · intro hA hB
    have hA' : 0 < normSq a := lt_of_le_of_ne (normSq_nonneg a) (Ne.symm hA)
    have hB' : 0 < normSq b := lt_of_le_of_ne (normSq_nonneg b) (Ne.symm hB)
    have hr : (0 : ℚ) < normSq a * normSq b := mul_pos hA' hB'
    have hrR : (0 : ℝ) < ((normSq a * normSq b : ℚ) : ℝ) := by exact_mod_cast hr
    have hsq : (0 : ℝ) < Real.sqrt ((normSq a * normSq b : ℚ) : ℝ) := Real.sqrt_pos.mpr hrR
    have hcs : ((dot a b : ℚ) : ℝ) ^ 2 ≤ ((normSq a * normSq b : ℚ) : ℝ) := by
      exact_mod_cast dot_sq_le_normSq_mul a b h
    have habs : |((dot a b : ℚ) : ℝ)| ≤ Real.sqrt ((normSq a * normSq b : ℚ) : ℝ) := by
      rw [Real.le_sqrt (abs_nonneg _) hrR.le]
      rwa [sq_abs]
    have htr : (cosineSim a b).toReal =
        ((dot a b : ℚ) : ℝ) / Real.sqrt ((normSq a * normSq b : ℚ) : ℝ) := rfl
    rw [htr]
    constructor
    · rw [le_div_iff₀ hsq]
      have := neg_abs_le ((dot a b : ℚ) : ℝ)
      linarith
    · rw [div_le_one hsq]
      have := le_abs_self ((dot a b : ℚ) : ℝ)
      linarith

/-- Witness for C8 at concrete vectors of nonzero norm. -/
theorem cosine_similarity_guarded_witness :
    -1 ≤ (cosineSim [3, 4] [4, 3]).toReal ∧ (cosineSim [3, 4] [4, 3]).toReal ≤ 1 :=
  (cosine_similarity_guarded [3, 4] [4, 3] rfl).2 (by norm_num [normSq]) (by norm_num [normSq])

/-! ## Claim C10: every built node has degree at least 1 -/

theorem mem_addNode_id {ns : List NodeData} {x nd : NodeData} (h : nd ∈ addNode ns x) :
    nd ∈ ns ∨ nd.id = x.id := by
  unfold addNode at h
  by_cases hmem : ns.any fun y => y.id = x.id
  · rw [if_pos hmem] at h
    rcases List.mem_map.mp h with ⟨y, hy, hrepl⟩
    by_cases hid : y.id = x.id
    · rw [if_pos hid] at hrepl
      right
      rw [← hrepl]
    · rw [if_neg hid] at hrepl
      left
      rw [← hrepl]
      exact hy
  · rw [if_neg hmem] at h
    rcases List.mem_append.mp h with h | h
    · exact Or.inl h
    · right
      rw [List.mem_singleton.mp h]

theorem foldl_addRecord_covered :
    ∀ (records : List RawRecord) (G0 : Graph),
      (∀ nd ∈ G0.nodes, ∃ e ∈ G0.edges, nd.id = e.1 ∨ nd.id = e.2) →
      ∀ nd ∈ (records.foldl addRecord G0).nodes,
        ∃ e ∈ (records.foldl addRecord G0).edges, nd.id = e.1 ∨ nd.id = e.2
  | [], G0, h0 => h0
  | r :: rs, G0, h0 => by
    rw [List.foldl_cons]
    apply foldl_addRecord_covered rs (addRecord G0 r)
    intro nd hnd
    rcases mem_addNode_id hnd with hnd' | hid
    · rcases mem_addNode_id hnd' with hnd'' | hid
      · obtain ⟨e, he, hor⟩ := h0 nd hnd''
        exact ⟨e, List.mem_append.mpr (Or.inl he), hor⟩
      · exact ⟨(r.n.id, r.m.id), List.mem_append.mpr (Or.inr (by simp)), Or.inl hid⟩
    · exact ⟨(r.n.id, r.m.id), List.mem_append.mpr (Or.inr (by simp)), Or.inr hid⟩

theorem foldl_addRecord_edges :
    ∀ (records : List RawRecord) (G0 : Graph) (e : String × String),
      e ∈ (records.foldl addRecord G0).edges →
      e ∈ G0.edges ∨ ∃ r ∈ records, e = (r.n.id, r.m.id)
  | [], _, _, he => Or.inl he
  | r :: rs, G0, e, he => by
    rw [List.foldl_cons] at he
    rcases foldl_addRecord_edges rs (addRecord G0 r) e he with he' | ⟨r', hr', heq⟩
    · rcases List.mem_append.mp he' with h | h
      · exact Or.inl h
      · exact Or.inr ⟨r, List.mem_cons_self r rs, List.mem_singleton.mp h⟩
    · exact Or.inr ⟨r', List.mem_cons_of_mem r hr', heq⟩

/-- **C10.** Every node of the graph built by `build_networkx_graph` is
an endpoint of some loaded relationship record, hence has degree at
least 1; consequently every node detector (c) examines (degree `≤ 2`)
has degree exactly 1 or 2 — a degree-0 node can never enter the Graph
View, let alone produce a gap. -/
theorem built_node_min_degree (records : List RawRecord) (nd : NodeData)
    (hnd : nd ∈ (buildNetworkxGraph records).nodes) :
    (∃ r ∈ records, nd.id = r.n.id ∨ nd.id = r.m.id) ∧
    1 ≤ degree (buildNetworkxGraph records) nd.id ∧
    (degree (buildNetworkxGraph records) nd.id ≤ 2 →
      degree (buildNetworkxGraph records) nd.id = 1 ∨
      degree (buildNetworkxGraph records) nd.id = 2) := by
  obtain ⟨e, he, hor⟩ := foldl_addRecord_covered records ⟨[], []⟩ (by simp) nd hnd
  have hrec : ∃ r ∈ records, e = (r.n.id, r.m.id) := by
    rcases foldl_addRecord_edges records ⟨[], []⟩ e he with h | h
    · simp at h
    · exact h
  have hdeg : 1 ≤ degree (buildNetworkxGraph records) nd.id := by
    have hne : ∃ v, v ∈ neighborsList (buildNetworkxGraph records) nd.id := by
      rcases hor with hid | hid
      · exact ⟨e.2, mem_neighborsList.mpr (Or.inl (by rw [hid]; exact he))⟩
      · exact ⟨e.1, mem_neighborsList.mpr (Or.inr (by rw [hid]; exact he))⟩
    obtain ⟨v, hv⟩ := hne
    have := List.length_pos_of_mem hv
    unfold degree
    omega
  refine ⟨?_, hdeg, by omega⟩
  obtain ⟨r, hr, heq⟩ := hrec
  rcases hor with hid | hid
  · exact ⟨r, hr, Or.inl (by rw [hid, heq])⟩
  · exact ⟨r, hr, Or.inr (by rw [hid, heq])⟩

/-- Witness for C10 at the concrete snapshot `records7`. -/
theorem built_node_min_degree_witness :
    (∃ r ∈ records7, ndM1g7.id = r.n.id ∨ ndM1g7.id = r.m.id) ∧
    1 ≤ degree (buildNetworkxGraph records7) ndM1g7.id ∧
    (degree (buildNetworkxGraph records7) ndM1g7.id ≤ 2 →
      degree (buildNetworkxGraph records7) ndM1g7.id = 1 ∨
      degree (buildNetworkxGraph records7) ndM1g7.id = 2) :=
  built_node_min_degree records7 ndM1g7 (by decide)

/-! ## Witness graphs for claims C1 and C5 -/

def ndP1A : NodeData := ⟨"p1", "pathway", "P1", "", propsNone⟩
def ndP2A : NodeData := ⟨"p2", "pathway", "P2", "", propsNone⟩
def ndXA : NodeData := ⟨"x", "other", "X", "", propsNone⟩
def ndYA : NodeData := ⟨"y", "other", "Y", "", propsNone⟩

def recsA : List RawRecord :=
  [⟨ndP1A, ndXA, "RELATES_TO", 1⟩, ⟨ndP1A, ndYA, "RELATES_TO", 1⟩,
   ⟨ndP2A, ndXA, "RELATES_TO", 1⟩, ⟨ndP2A, ndYA, "RELATES_TO", 1⟩]

def gA : Graph := buildNetworkxGraph recsA

def encA : String → List ℚ := fun s =>
  if s = "P1 " then [1, 0] else if s = "P2 " then [4, 3] else []

/-- Witness for C1: on `gA` the two pathway nodes have similarity
`0.8 > 0.7` and two common neighbors, so exactly one record is
emitted. -/
theorem pathway_pair_emission_witness :
    (findMissingPathwayConnections encA gA).countP (proposesPair "p1" "p2") = 1 :=
  (pathway_pair_emission encA gA "p1" "p2" [1, 0] [4, 3] (by decide) (by decide) (by decide)
    (by decide) (by decide) rfl rfl).1.1
    ⟨by
      have h1 : (cosineSim [1, 0] [4, 3]).simGT (7/10) = true := by
        norm_num [SqrtVal.simGT, cosineSim, dot, normSq]
      have h2 := (SqrtVal.simGT_iff (cosineSim [1, 0] [4, 3]) (by norm_num : (0:ℚ) ≤ 7/10)).mp h1
      have h3 : (((7:ℚ)/10 : ℚ) : ℝ) = (7:ℝ)/10 := by norm_num
      rwa [h3] at h2, by decide⟩

def ndR5 : NodeData := ⟨"r", "result", "R", "", propsNone⟩
def ndM15 : NodeData := ⟨"m1", "method", "M1", "", propsNone⟩
def ndM25 : NodeData := ⟨"m2", "method", "M2", "", propsNone⟩

def recs5 : List RawRecord :=
  [⟨ndR5, ndM15, "USES_METHOD", 1⟩, ⟨ndR5, ndM25, "USES_METHOD", 1⟩]

def gB5 : Graph := buildNetworkxGraph recs5

/-- Witness for C5: methods `m1` and `m2` share the result node `r`, so
detector (b) proposes nothing for the pair. -/
theorem successful_combination_never_proposed_witness :
    (findUntestedMethodCombinations encC2 gB5).countP (proposesPair "m1" "m2") = 0 :=
  successful_combination_never_proposed encC2 gB5 ndR5 "m1" "m2" (by decide) (by decide)
    (by decide) (by decide) (by decide) (by decide) (by decide)
